import Mathlib

/-!
# SMAUG tiling core: tile-copy engine, tiled tensors and tiled-execution driver

A shallow embedding of

* `internal::copyTensorRegion`, in both of its build variants, and
  `internal::copyRawTensorData` (`nnet_lib/src/core/tensor_utils.h`),
* `generateTiledTensorAndCopyData` and `untileTiledTensor` (declared there),
* `SmvInnerProductOp::runNWA` (`nnet_lib/src/operators/smv/smv_inner_product_op.cpp`),
* the buffer placement of `run_layer` and `nnet_fwd`, and the buffer sizing of
  `calc_layer_intermediate_memory` and `main` (`nnet_lib/src/nnet_fwd.c`), and
* the first policy step of `TilingOptimizer::computeBasicTileShapes`,

together with the shape / index-cursor / tiled-tensor types they use, and
theorems about them.

Conventions: C++ `int` quantities that are sizes, counts or offsets are `Nat`,
except in the buffer sizing of `nnet_fwd.c`, where the products of `int`s are
32-bit products and the conversions to `size_t` are modelled as such;
loops are structural recursions that mirror the C++ loop bodies; a `while`
loop takes a fuel argument and reports fuel exhaustion as a result of its own,
so that every theorem about a returned result also shows that the loop ends.
Memory is idealised: a tensor buffer is an unbounded array addressed by linear
index and the lookup of a tile in a grid is total, so that an access outside
a buffer or a grid is visible in the index used and does not stop the run.
What a theorem says of the model it says of the program where the accesses
stay inside the buffers and the grids; defects are shown on evaluated inputs,
with the index ranges of the block copies or the grid positions used.
-/

namespace smaug

/-! ## Tiled-execution driver: data model -/

/-- Modelled from the spec: the class `TiledTensor` (declared in the absent
`core/tensor.h`), "a logical grid of Tensor tiles". `shape` is `getShape()`,
the number of tiles in each grid dimension; `tileDims i` is the shape
`(*this)[i]->getShape()` of the tile stored at linear position `i`. The
lookup of a tile is total: `tileDims` answers at every position, also outside
the grid, and a kernel call records the positions it used. In the program a
lookup at a position of `size()` or more lies outside the grid: the calls that
the model lists from such a lookup on are those that follow it, and only a
run whose positions are all inside the grids is a run of the program to its
end. -/
structure TiledTensor where
  shape : List Nat
  tileDims : Nat → List Nat

/-- Modelled from the spec: `TiledTensor::size()`, the number of tiles of the
grid, the product of the tile counts of all grid dimensions. -/
def TiledTensor.size (t : TiledTensor) : Nat := t.shape.prod

/-- Modelled from the spec: `getShape()[i]`, the number of tiles along grid
dimension `i`. -/
def TiledTensor.dim (t : TiledTensor) (i : Nat) : Nat := t.shape.getD i 0

/-- Modelled from the spec: the call operator of the index cursor returned by
`TiledTensor::startIndex()`, the row-major linear position of the tile with
grid coordinates `(i, j)` in a two-dimensional grid (innermost dimension
fastest; a tile grid carries no padding). -/
def TiledTensor.idx (t : TiledTensor) (i j : Nat) : Nat :=
  i * t.dim 1 + j

/-- Modelled from the spec: entry `i` of the shape of the tile stored at
linear position `k`, `(*this)[k]->getShape()[i]`. -/
def TiledTensor.tileDim (t : TiledTensor) (k i : Nat) : Nat := (t.tileDims k).getD i 0

/-- How a run of the driver ended. -/
inductive Status where
  | ok
  | assertFailed
  | outOfFuel
deriving DecidableEq, Repr

/-- One `invokeKernel` call of `runNWA`. The loop counters `batch` (`N`),
`neuron` (`W`), `iC` and `wC` at the call are recorded next to the arguments
the kernel receives: the three tiles (by linear position in their grids), the
tile dimensions, `actStart`, `finishedNeurons`, `accumulate` and
`sendOutputs`. The data pointers, scratchpad ids and padding arguments are
not recorded. -/
structure KernelCall where
  batch : Nat
  neuron : Nat
  iC : Nat
  wC : Nat
  inputTile : Nat
  weightsTile : Nat
  outputTile : Nat
  inputDims : Nat × Nat
  weightsDims : Nat × Nat
  outputDims : Nat × Nat
  actStart : Nat
  finishedNeurons : Nat
  accumulate : Bool
  sendOutputs : Bool
deriving DecidableEq, Repr

/-- The kernel calls issued so far and how the run ended. -/
structure RunResult where
  calls : List KernelCall
  status : Status
deriving DecidableEq, Repr

/-- Sequencing: the calls of `r` come after `cs`. -/
def RunResult.after (cs : List KernelCall) (r : RunResult) : RunResult :=
  ⟨cs ++ r.calls, r.status⟩

/-- The first two entries of the shape of the tile at linear position `k`,
`{ shape[0], shape[1] }`. -/
def dims2 (t : TiledTensor) (k : Nat) : Nat × Nat := (t.tileDim k 0, t.tileDim k 1)

/-! ## Tiled-execution driver: `runNWA` -/

/-- The `invokeKernel` call in the body of the `while` loop of `runNWA`, for
loop counters `N`, `W`, `iC`, `wC` and the running values `actOffset`,
`finishedNeurons`, `sendOutputs`. -/
def kernelCall (inputs weights outputs : TiledTensor)
    (N W finishedNeurons : Nat) (sendOutputs : Bool) (iC wC actOffset : Nat) : KernelCall :=
  { batch := N
    neuron := W
    iC := iC
    wC := wC
    inputTile := inputs.idx N iC
    weightsTile := weights.idx W wC
    outputTile := outputs.idx N 0
    inputDims := dims2 inputs (inputs.idx N iC)
    weightsDims := dims2 weights (weights.idx W wC)
    outputDims := dims2 outputs (outputs.idx N 0)
    actStart := if iC = wC then 0 else actOffset
    finishedNeurons := finishedNeurons
    accumulate := decide (wC > 0)
    sendOutputs := sendOutputs }

/-- The loop `while (iC < inputActTiles && wC < weightActTiles)` of `runNWA`.
The first argument is the fuel; the loop test is made before fuel is used. -/
def actLoop (inputs weights outputs : TiledTensor)
    (N W finishedNeurons : Nat) (sendOutputs : Bool) : Nat → Nat → Nat → Nat → RunResult
  | 0, iC, wC, _ =>
    if iC < inputs.dim 1 ∧ wC < weights.dim 1 then ⟨[], Status.outOfFuel⟩
    else ⟨[], Status.ok⟩
  | fuel + 1, iC, wC, actOffset =>
    if iC < inputs.dim 1 ∧ wC < weights.dim 1 then
      let call := kernelCall inputs weights outputs N W finishedNeurons sendOutputs iC wC actOffset
      let actOffset1 := actOffset + weights.tileDim (weights.idx W wC) 1
      if inputs.dim 1 = weights.dim 1 then
        (actLoop inputs weights outputs N W finishedNeurons sendOutputs
          fuel (iC + 1) (wC + 1) actOffset1).after [call]
      else if inputs.dim 1 = 1 then
        (actLoop inputs weights outputs N W finishedNeurons sendOutputs
          fuel iC (wC + 1) actOffset1).after [call]
      else ⟨[call], Status.assertFailed⟩
    else ⟨[], Status.ok⟩

/-- The loop `for (int W = 0; W < weightNeuronTiles; W++)` of `runNWA`; the
first argument counts the iterations that remain. The `while` loop inside
gets `weightActTiles` units of fuel. -/
def neuronLoop (inputs weights outputs : TiledTensor) (N : Nat) : Nat → Nat → Nat → RunResult
  | 0, _, _ => ⟨[], Status.ok⟩
  | rem + 1, W, finishedNeurons =>
    let sendOutputs := decide ((W : Int) = (weights.dim 0 : Int) - 1)
    let r := actLoop inputs weights outputs N W finishedNeurons sendOutputs
      (weights.dim 1) 0 0 0
    match r.status with
    | Status.ok =>
      (neuronLoop inputs weights outputs N rem (W + 1)
        (finishedNeurons + weights.tileDim (weights.idx W 0) 0)).after r.calls
    | _ => r

/-- The loop `for (int N = 0; N < inputs.getShape()[0]; N++)` of `runNWA`; the
first argument counts the iterations that remain. -/
def batchLoop (inputs weights outputs : TiledTensor) : Nat → Nat → RunResult
  | 0, _ => ⟨[], Status.ok⟩
  | rem + 1, N =>
    let r := neuronLoop inputs weights outputs N (weights.dim 0) 0 0
    match r.status with
    | Status.ok => (batchLoop inputs weights outputs rem (N + 1)).after r.calls
    | _ => r

/-- The function `SmvInnerProductOp::runNWA`: the kernel calls it issues, in
order, and whether it ran to completion or stopped at a failed assertion. -/
def runNWA (inputs weights outputs : TiledTensor) : RunResult :=
  if outputs.size = 1 then batchLoop inputs weights outputs (inputs.dim 0) 0
  else ⟨[], Status.assertFailed⟩

/-- A tile grid of `rows × cols` tiles whose tile at `(i, j)` has shape
`dims i j`. -/
def grid (rows cols : Nat) (dims : Nat → Nat → List Nat) : TiledTensor :=
  { shape := [rows, cols]
    tileDims := fun k => dims (k / cols) (k % cols) }

/-! ### Closed forms of the running values -/

/-- The value of `actOffset` when the `while` loop of `runNWA` reaches weight
activation tile `a` of weight-neuron tile `W`. -/
def actOffsetAt (weights : TiledTensor) (W : Nat) : Nat → Nat
  | 0 => 0
  | a + 1 => actOffsetAt weights W a + weights.tileDim (weights.idx W a) 1

/-- The value of `finishedNeurons` when the neuron loop of `runNWA` reaches
weight-neuron tile `W`. -/
def finishedAt (weights : TiledTensor) : Nat → Nat
  | 0 => 0
  | W + 1 => finishedAt weights W + weights.tileDim (weights.idx W 0) 0

/-- The input activation tile used together with weight activation tile `a`. -/
def inputActOf (inputs weights : TiledTensor) (a : Nat) : Nat :=
  if inputs.dim 1 = weights.dim 1 then a else 0

/-- The kernel call of `runNWA` at batch tile `N`, weight-neuron tile `W` and
weight activation tile `a`, in closed form. -/
def callAt (inputs weights outputs : TiledTensor) (N W a : Nat) : KernelCall :=
  kernelCall inputs weights outputs N W (finishedAt weights W)
    (decide ((W : Int) = (weights.dim 0 : Int) - 1))
    (inputActOf inputs weights a) a (actOffsetAt weights W a)

/-! ## Shape and index model -/

/-- Modelled from the spec: `calc_padding`, declared in `utility/utils.h` as
"Return the difference between @value and the next multiple of @alignment"
(its definition is absent). An alignment of 0 requests no padding. -/
def calc_padding (value alignment : Nat) : Nat :=
  if alignment = 0 ∨ value % alignment = 0 then 0 else alignment - value % alignment

/-- Modelled from the spec: the class `TensorShape` (declared in the absent
`core/tensor.h`): the dimension sizes, outer to inner, and the alignment rule
it was constructed with. The layout tag plays no part in any index
computation and is left out. -/
structure TensorShape where
  dims : List Nat
  alignment : Nat
deriving DecidableEq, Repr

/-- Modelled from the spec: the "per-dimension padding amount" of a shape:
the innermost dimension is padded up to the next multiple of the alignment,
every other dimension has padding 0. -/
def computePadding (alignment : Nat) : List Nat → List Nat
  | [] => []
  | [d] => [calc_padding d alignment]
  | _ :: d :: ds => 0 :: computePadding alignment (d :: ds)

/-- Modelled from the spec: `TensorShape::ndims()`. -/
def TensorShape.ndims (s : TensorShape) : Nat := s.dims.length

/-- Modelled from the spec: `TensorShape::operator[]`, the logical size of
dimension `i`. -/
def TensorShape.get (s : TensorShape) (i : Nat) : Nat := s.dims.getD i 0

/-- Modelled from the spec: `TensorShape::getPadding()`. -/
def TensorShape.padding (s : TensorShape) : List Nat := computePadding s.alignment s.dims

/-- Modelled from the spec: `TensorShape::getStorageDim(i)`, with the
invariant `storageSize(dim) = logicalSize(dim) + padding(dim)`. -/
def TensorShape.getStorageDim (s : TensorShape) (i : Nat) : Nat :=
  s.dims.getD i 0 + s.padding.getD i 0

/-- Modelled from the spec: `TensorShape::storageSize()`, "total storage
volume = product of storage sizes". -/
def TensorShape.storageSize (s : TensorShape) : Nat :=
  (List.zipWith (· + ·) s.dims s.padding).prod

/-- Modelled from the spec: the loop of `TensorIndexIterator::getIndex`, from
the innermost dimension outwards: the linear index of the coordinates seen so
far and the stride of the next dimension, the product of the storage sizes of
the dimensions seen so far. -/
def getIndexAux : List Nat → List Nat → List Nat → Nat × Nat
  | d :: dims, p :: padding, i :: indices =>
    let r := getIndexAux dims padding indices
    (r.1 + i * r.2, r.2 * (d + p))
  | _, _, _ => (0, 1)

/-- Modelled from the spec: `TensorIndexIterator::getIndex`, the position in
the backing store of the element with the given coordinates. -/
def getIndex (dims padding indices : List Nat) : Nat := (getIndexAux dims padding indices).1

/-- Modelled from the spec: the class `TensorRegionIndexIterator` (declared in
the absent `core/tensor.h`), the index cursor that walks the region
`[origin, origin + regionSize)` of a shape. -/
structure TensorRegionIndexIterator where
  state : List Nat
  dims : List Nat
  padding : List Nat
  atEnd : Bool
  origin : List Nat
  regionSize : List Nat
deriving DecidableEq, Repr

/-- Modelled from the spec: the constructor
`TensorRegionIndexIterator(shape, origin, regionSize)`: the cursor starts at
the origin of the region and is not at its end. -/
def TensorRegionIndexIterator.init (shape : TensorShape) (origin regionSize : List Nat) :
    TensorRegionIndexIterator :=
  { state := origin
    dims := shape.dims
    padding := shape.padding
    atEnd := false
    origin := origin
    regionSize := regionSize }

/-- Modelled from the spec: the conversion of a cursor to `int`, the linear
index of its position. -/
def TensorRegionIndexIterator.index (it : TensorRegionIndexIterator) : Nat :=
  getIndex it.dims it.padding it.state

/-- Modelled from the spec: the carry loop of
`TensorRegionIndexIterator::advanceRegion`, from the innermost dimension
outwards, "advances fastest in the innermost dimension, carrying into outer
dimensions on overflow". Arguments: state, dims, origin, regionSize and the
stride vector. A dimension is stepped only while the carry is set; its
coordinate overflows when it reaches the end of the shape or of the region, and
then restarts at the region origin. Result: the new state and the carry out of
the outermost dimension. -/
def advanceRegionAux : List Nat → List Nat → List Nat → List Nat → List Nat → List Nat × Bool
  | s :: state, d :: dims, o :: origin, r :: regionSize, a :: advance =>
    let inner := advanceRegionAux state dims origin regionSize advance
    if inner.2 then
      let currValue := s + a
      if currValue ≥ d ∨ currValue ≥ o + r then (o :: inner.1, true)
      else (currValue :: inner.1, false)
    else (s :: inner.1, false)
  | _, _, _, _, _ => ([], true)

/-- Modelled from the spec: `TensorRegionIndexIterator::operator+=`, "bulk
advance by a stride vector"; the cursor "reaches a terminal end state once
the outermost dimension overflows". A cursor without dimensions never
does. -/
def TensorRegionIndexIterator.advance (it : TensorRegionIndexIterator) (region : List Nat) :
    TensorRegionIndexIterator :=
  let r := advanceRegionAux it.state it.dims it.origin it.regionSize region
  { it with
    state := r.1
    atEnd := it.atEnd || (r.2 && !it.state.isEmpty) }

/-! ## Tile-copy engine -/

/-- Modelled from the spec: the class `Tensor`: a shape and a backing buffer,
addressed by linear index. The buffer is modelled as unbounded flat memory;
the `storageSize` of the shape says which part of it the tensor owns. In the
program the buffer ends there: an access at a linear index of `storageSize` or
more lies outside the buffer, and what the model says of the data after a
copy that makes such an access is no statement about the program.
`copyTensorRegionCalls` lists the index ranges of the block copies of a
call. -/
structure Tensor (α : Type) where
  shape : TensorShape
  data : Nat → α

/-- The element of a tensor at the given coordinates. -/
def Tensor.elem {α : Type} (t : Tensor α) (indices : List Nat) : α :=
  t.data (getIndex t.shape.dims t.shape.padding indices)

/-- The function `sum` of `utility/utils.h`: the element-wise sum of two
vectors of the same size. -/
def sum (array0 array1 : List Nat) : List Nat := List.zipWith (· + ·) array0 array1

/-- The call `memcpy(&destPtr[destOff], &srcPtr[srcOff], count * sizeof(DType))`:
the destination buffer afterwards. -/
def memcpy {α : Type} (destPtr : Nat → α) (destOff : Nat) (srcPtr : Nat → α) (srcOff : Nat)
    (count : Nat) : Nat → α :=
  fun k => if destOff ≤ k ∧ k < destOff + count then srcPtr (srcOff + (k - destOff)) else destPtr k

/-- The loop `for (int i = ndims - 1; i >= 0; i--)` of `copyTensorRegion` that
finds the contiguous block. The first argument is `i + 1`; the state is
`(contiguousRegion, contiguousSize)`. -/
def contiguousLoop (regionShape srcShape destShape : TensorShape) :
    Nat → List Nat × Nat → List Nat × Nat
  | 0, st => st
  | i + 1, (contiguousRegion, contiguousSize) =>
    let contiguousSize1 := contiguousSize * regionShape.getStorageDim i
    let contiguousRegion1 := contiguousRegion.set i (regionShape.get i)
    if regionShape.get i < srcShape.get i ∨ regionShape.get i < destShape.get i then
      (contiguousRegion1, contiguousSize1)
    else contiguousLoop regionShape srcShape destShape i (contiguousRegion1, contiguousSize1)

/-- The loop `while (!srcIt.end() && !destIt.end())` of `copyTensorRegion`,
for a loop body that acts on a state `σ` given the linear indices of the two
cursors, and a stride vector `step` by which both cursors advance. The first
argument is the fuel; the loop test is made before fuel is used. -/
def regionLoop {σ : Type} (body : Nat → Nat → σ → σ) (step : List Nat) :
    Nat → TensorRegionIndexIterator → TensorRegionIndexIterator → σ → Option σ
  | 0, destIt, srcIt, st => if !srcIt.atEnd && !destIt.atEnd then none else some st
  | fuel + 1, destIt, srcIt, st =>
    if !srcIt.atEnd && !destIt.atEnd then
      regionLoop body step fuel (destIt.advance step) (srcIt.advance step)
        (body destIt.index srcIt.index st)
    else some st

/-- Fuel for the copy loop: the loop makes at most one step per element of the
region (one per block), and one where a dimension of the region is empty. -/
def loopBound (regionSize : List Nat) : Nat := (regionSize.map (· + 1)).prod

/-- The function `internal::copyTensorRegion`, default build (bulk `memcpy`
path): the destination tensor afterwards, or `none` if the copy loop does not
end within `loopBound regionSize` steps. -/
def copyTensorRegion {α : Type} (dest src : Tensor α)
    (destOrigin srcOrigin regionSize : List Nat) : Option (Tensor α) :=
  let srcShape := src.shape
  let destShape := dest.shape
  let regionShape : TensorShape := ⟨regionSize, srcShape.alignment⟩
  let ndims := srcShape.ndims
  let destIt := TensorRegionIndexIterator.init destShape destOrigin regionSize
  let srcIt := TensorRegionIndexIterator.init srcShape srcOrigin regionSize
  let contiguous := contiguousLoop regionShape srcShape destShape ndims (List.replicate ndims 1, 1)
  (regionLoop (fun destIdx srcIdx destPtr => memcpy destPtr destIdx src.data srcIdx contiguous.2)
      contiguous.1 (loopBound regionSize) destIt srcIt dest.data).map
    (fun destPtr => { dest with data := destPtr })

/-- Whether the region `[origin, origin + regionSize)` lies inside a shape with
the given logical dimension sizes: the three vectors have the same length and
`origin[i] + regionSize[i] ≤ dims[i]` in every dimension `i`. -/
def inBounds : List Nat → List Nat → List Nat → Bool
  | [], [], [] => true
  | o :: origin, r :: regionSize, d :: dims => decide (o + r ≤ d) && inBounds origin regionSize dims
  | _, _, _ => false

/-- Whether `c` is a coordinate inside a region of the given size: the same
number of entries, and `c[i] < regionSize[i]` in every dimension `i`. -/
def inRegion : List Nat → List Nat → Bool
  | [], [] => true
  | c :: cs, r :: regionSize => decide (c < r) && inRegion cs regionSize
  | _, _ => false

/-! ### Storage sizes -/

/-- The function `internal::copyRawTensorData`: one `memcpy` of `copySize`
elements between the two backing stores, at the given linear offsets. -/
def copyRawTensorData {α : Type} (dest src : Tensor α)
    (destOffset srcOffset copySize : Nat) : Tensor α :=
  { dest with data := memcpy dest.data destOffset src.data srcOffset copySize }

/-- The function `internal::copyTensorRegion`, build with `PEDANTIC` defined:
the loop body is `destPtr[destIt] = srcPtr[srcIt]; ++destIt; ++srcIt;`. The
single step `++` of a region cursor is the advance by one in every dimension
(only the dimensions reached by the carry move). The block found by the
first loop is computed in this build too, and not used. -/
def copyTensorRegionPedantic {α : Type} (dest src : Tensor α)
    (destOrigin srcOrigin regionSize : List Nat) : Option (Tensor α) :=
  let srcShape := src.shape
  let destShape := dest.shape
  let ndims := srcShape.ndims
  let destIt := TensorRegionIndexIterator.init destShape destOrigin regionSize
  let srcIt := TensorRegionIndexIterator.init srcShape srcOrigin regionSize
  (regionLoop (fun destIdx srcIdx destPtr => Function.update destPtr destIdx (src.data srcIdx))
      (List.replicate ndims 1) (loopBound regionSize) destIt srcIt dest.data).map
    (fun destPtr => { dest with data := destPtr })

/-- One `memcpy` call of `copyTensorRegion`: the linear index of the first
element written, the linear index of the first element read, and the number
of elements copied. -/
structure MemcpyCall where
  destIndex : Nat
  srcIndex : Nat
  count : Nat
deriving DecidableEq, Repr

/-- The `memcpy` calls that `internal::copyTensorRegion` (default build)
issues, in order, for tensors of the given shapes; `none` if the copy loop
does not end within `loopBound regionSize` steps. -/
def copyTensorRegionCalls (destShape srcShape : TensorShape)
    (destOrigin srcOrigin regionSize : List Nat) : Option (List MemcpyCall) :=
  let regionShape : TensorShape := ⟨regionSize, srcShape.alignment⟩
  let ndims := srcShape.ndims
  let destIt := TensorRegionIndexIterator.init destShape destOrigin regionSize
  let srcIt := TensorRegionIndexIterator.init srcShape srcOrigin regionSize
  let contiguous := contiguousLoop regionShape srcShape destShape ndims (List.replicate ndims 1, 1)
  regionLoop (fun destIdx srcIdx calls => calls ++ [⟨destIdx, srcIdx, contiguous.2⟩])
    contiguous.1 (loopBound regionSize) destIt srcIt []


/-! ## Tiled-tensor generator -/

/-- Modelled from the spec: one tile of a tiled tensor together with "its
origin offset within the untiled source tensor". -/
structure Tile (α : Type) where
  origin : List Nat
  tensor : Tensor α

/-- Modelled from the spec: the class `TiledTensor` with the contents of its
tiles, "a logical grid of Tensor tiles plus, per tile, its origin offset
within the untiled source tensor": `shape` is the number of tiles in each
dimension, `tiles` are the tiles in the order of the index cursor (innermost
grid dimension fastest). -/
structure TiledTensorData (α : Type) where
  shape : List Nat
  tiles : List (Tile α)

/-- Ceiling of `a / b`. -/
def ceilDiv (a b : Nat) : Nat := (a + b - 1) / b

/-- All positions of a grid with the given numbers of tiles per dimension, in
the order of the index cursor: innermost dimension fastest. -/
def gridPositions : List Nat → List (List Nat)
  | [] => [[]]
  | n :: ns => (List.range n).flatMap (fun i => (gridPositions ns).map (fun g => i :: g))

/-- Whether a tile shape can be used on a source of the given logical sizes:
the same rank, and every tile dimension at least 1 and at most the source
dimension. -/
def tileFits : List Nat → List Nat → Bool
  | [], [] => true
  | s :: tileDims, d :: dims => decide (1 ≤ s) && decide (s ≤ d) && tileFits tileDims dims
  | _, _ => false

/-- Modelled from the spec: `generateTiledTensor` for zero halo and unit
stride (its default arguments): "the number of tiles = ceiling of (logical
size) divided by (tile size)" in each dimension, the tile at grid position `g`
has its origin at `g * tileShape`, and "for the trailing tile in a dimension,
if the remaining span is smaller than the nominal tile size, the tile is
clipped to the remaining size". A tile takes the alignment of the tile shape;
its freshly allocated buffer holds `fresh`. "Requesting a tile shape with a
different rank than the source, or a tile dimension larger than the source
dimension, is a configuration error", here `none`, as is a tile dimension
of 0. -/
def generateTiledTensor {α : Type} (tensor : Tensor α) (tileShape : TensorShape)
    (fresh : Nat → α) : Option (TiledTensorData α) :=
  if tileFits tileShape.dims tensor.shape.dims then
    let numBlocksInDim := List.zipWith ceilDiv tensor.shape.dims tileShape.dims
    some
      { shape := numBlocksInDim
        tiles := (gridPositions numBlocksInDim).map (fun g =>
          let origin := List.zipWith (· * ·) g tileShape.dims
          let remaining := List.zipWith (· - ·) tensor.shape.dims origin
          { origin := origin
            tensor := ⟨⟨List.zipWith min tileShape.dims remaining, tileShape.alignment⟩,
              fresh⟩ }) }
  else none

/-- Modelled from the spec: the loop of `TiledTensor::copyDataToAllTiles`,
which "copies data into every tile via the Tile-Copy Engine": the region of
the source at the origin of the tile, of the size of the tile, goes to the
origin of the tile's own tensor. -/
def copyDataToTiles {α : Type} (src : Tensor α) : List (Tile α) → Option (List (Tile α))
  | [] => some []
  | t :: ts =>
    match copyTensorRegion t.tensor src (List.replicate t.origin.length 0) t.origin
        t.tensor.shape.dims with
    | none => none
    | some filled =>
      match copyDataToTiles src ts with
      | none => none
      | some rest => some ({ t with tensor := filled } :: rest)

/-- The function template `generateTiledTensorAndCopyData`:
`generateTiledTensor` followed by `copyDataToAllTiles`. -/
def generateTiledTensorAndCopyData {α : Type} (tensor : Tensor α) (tileShape : TensorShape)
    (fresh : Nat → α) : Option (TiledTensorData α) :=
  match generateTiledTensor tensor tileShape fresh with
  | none => none
  | some tiledTensor =>
    match copyDataToTiles tensor tiledTensor.tiles with
    | none => none
    | some tiles => some { tiledTensor with tiles := tiles }

/-- Modelled from the spec: the loop of `untileTiledTensor`, which "copies
every tile back into its recorded origin inside a single destination tensor
using the Tile-Copy Engine". -/
def untileTiles {α : Type} : List (Tile α) → Tensor α → Option (Tensor α)
  | [], destTensor => some destTensor
  | t :: ts, destTensor =>
    match copyTensorRegion destTensor t.tensor t.origin (List.replicate t.origin.length 0)
        t.tensor.shape.dims with
    | none => none
    | some dest1 => untileTiles ts dest1

/-- Modelled from the spec: `untileTiledTensor`. -/
def untileTiledTensor {α : Type} (tiledTensor : TiledTensorData α) (destTensor : Tensor α) :
    Option (Tensor α) :=
  untileTiles tiledTensor.tiles destTensor

/-- Whether every entry of the first vector divides the entry of the second
vector at the same position (vectors of the same length). -/
def dividesAll : List Nat → List Nat → Bool
  | [], [] => true
  | s :: ss, d :: ds => decide (d % s = 0) && dividesAll ss ds
  | _, _ => false

/-- The origin and the dimension sizes of the tile at grid position `g`, for a
source with logical sizes `dims` and the nominal tile sizes `tileDims`. -/
def tileRegionAt (dims tileDims g : List Nat) : List Nat × List Nat :=
  (List.zipWith (· * ·) g tileDims,
   List.zipWith min tileDims (List.zipWith (· - ·) dims (List.zipWith (· * ·) g tileDims)))

/-! ## Tiling optimizer -/

/-- Modelled from the spec: `TilingConfig` (declared in the absent
`operators/smv/smv_batch_norm_tiling.h`): "three Shapes — one each for inputs,
weights, outputs of one operator invocation — each describing the per-tile
shape chosen by the optimizer". -/
structure TilingConfig where
  inputs : TensorShape
  weights : TensorShape
  outputs : TensorShape
deriving DecidableEq, Repr

/-- Modelled from the spec: the "scratchpad byte capacity per operand role
(inputs/weights/outputs)" of the backend configuration, whose constants are
absent, and the size in bytes of one element. -/
structure ScratchpadBudget where
  inputs : Nat
  weights : Nat
  outputs : Nat
  elemBytes : Nat
deriving DecidableEq, Repr

/-- Modelled from the spec: the byte footprint of a shape, its storage volume
times the size of an element. -/
def TensorShape.footprint (s : TensorShape) (elemBytes : Nat) : Nat :=
  s.storageSize * elemBytes

/-- Modelled from the spec: whether "input, weight, and output each fit
within their respective scratchpad budget". -/
def fitsBudget (budget : ScratchpadBudget) (config : TilingConfig) : Bool :=
  decide (config.inputs.footprint budget.elemBytes ≤ budget.inputs) &&
  decide (config.weights.footprint budget.elemBytes ≤ budget.weights) &&
  decide (config.outputs.footprint budget.elemBytes ≤ budget.outputs)

/-- Modelled from the spec: `TilingOptimizer::computeBasicTileShapes`, whose
definition (`operators/smv/smv_batch_norm_tiling.cpp`) is absent. "Policy:
first test whether input, weight, and output each fit within their respective
scratchpad budget untiled; if so, return the original shapes unchanged.
Otherwise, try increasingly fine-grained strategies in a fixed priority order,
selecting the first whose resulting per-tile footprint (for every one of
inputs/weights/outputs) fits the budget"; "if no strategy in the fixed
priority list fits the budget, this is an unrecoverable configuration error",
here `none`. The splitting strategies are an argument, in priority order:
each gives the per-tile shapes it proposes for the original shapes. -/
def computeBasicTileShapes (budget : ScratchpadBudget)
    (strategies : List (TilingConfig → TilingConfig)) (original : TilingConfig) :
    Option TilingConfig :=
  if fitsBudget budget original then some original
  else (strategies.map (fun strategy => strategy original)).find? (fitsBudget budget)


/-! ## Scalar reference forward pass: `nnet_fwd` -/

/-- Modelled from the spec: the enumeration `layer_type` (declared in the
absent `nnet_fwd.h`), with the layer types that `nnet_fwd.c` names. -/
inductive layer_type where
  | FC
  | CONV
  | POOL_MAX
  | POOL_AVG
  | SOFTMAX
deriving DecidableEq, Repr

/-- Modelled from the spec: the structure `layer_t` (declared in the absent
`nnet_fwd.h`), with the fields that `nnet_fwd.c` reads or writes. -/
structure layer_t where
  type : layer_type
  input_rows : Nat
  input_cols : Nat
  input_height : Nat
  output_rows : Nat
  output_cols : Nat
  output_height : Nat
  result_in_temp : Nat
deriving DecidableEq, Repr

/-- The two buffers `hid` and `hid_temp` that `nnet_fwd` alternates between. -/
inductive Buffer where
  | hid
  | hid_temp
deriving DecidableEq, Repr

/-- The function `run_layer`, as far as the placement of data goes: the value
it returns, `result_in_input`, and the buffers it writes, in order. A fully
connected layer and a max-pooling layer put their output into `result_temp`,
a convolution leaves its output in `activations`, any other layer type
computes nothing; the activation function, when requested, rewrites in place
the buffer that `result_in_input` selects. -/
def run_layer (activations result_temp : Buffer) (curr_layer : layer_t)
    (do_activation_func : Bool) : Bool × List Buffer :=
  let computed : Bool × List Buffer :=
    match curr_layer.type with
    | layer_type.FC => (false, [result_temp])
    | layer_type.CONV => (true, [activations])
    | layer_type.POOL_MAX => (false, [result_temp])
    | _ => (false, [])
  let result_in_input := computed.1
  if do_activation_func then
    (result_in_input, computed.2 ++ [if result_in_input then activations else result_temp])
  else (result_in_input, computed.2)

/-- The primary loop `nnet_fwd_outer` of `nnet_fwd`, over the layers from
index `l` on; the state is `result_in_temp` and the buffers written so far, in
order. -/
def nnet_fwd_outer (num_layers : Nat) : List layer_t → Nat → Bool → List Buffer →
    Bool × List Buffer
  | [], _, result_in_temp, writes => (result_in_temp, writes)
  | curr_layer :: rest, l, result_in_temp, writes =>
    let do_activation_func := decide ((l : Int) ≠ (num_layers : Int) - 1)
    let r :=
      if result_in_temp then
        run_layer Buffer.hid_temp Buffer.hid curr_layer do_activation_func
      else run_layer Buffer.hid Buffer.hid_temp curr_layer do_activation_func
    let result_in_input := r.1
    nnet_fwd_outer num_layers rest (l + 1)
      (if !result_in_input then !result_in_temp else result_in_temp) (writes ++ r.2)

/-- The function `nnet_fwd`, as far as the placement of data goes: the value
stored into `layers[num_layers - 1].result_in_temp`, and the buffers written,
in order. -/
def nnet_fwd (layers : List layer_t) : Nat × List Buffer :=
  let r := nnet_fwd_outer layers.length layers 0 false []
  ((if r.1 then 1 else 0), r.2)

theorem after_calls (cs : List KernelCall) (r : RunResult) :
    (r.after cs).calls = cs ++ r.calls := rfl

theorem actLoop_accepted (inputs weights outputs : TiledTensor)
    (N W fin : Nat) (send : Bool)
    (hacc : inputs.dim 1 = weights.dim 1 ∨ inputs.dim 1 = 1) :
    ∀ (fuel wC : Nat), wC ≤ weights.dim 1 → weights.dim 1 - wC ≤ fuel →
      actLoop inputs weights outputs N W fin send fuel (inputActOf inputs weights wC) wC
          (actOffsetAt weights W wC)
        = ⟨(List.range' wC (weights.dim 1 - wC)).map (fun a =>
            kernelCall inputs weights outputs N W fin send (inputActOf inputs weights a) a
              (actOffsetAt weights W a)), Status.ok⟩ := by
  intro fuel
  induction fuel with
  | zero =>
    intro wC h1 h2
    have h3 : weights.dim 1 - wC = 0 := by omega
    have h4 : ¬ (wC < weights.dim 1) := by omega
    simp [actLoop, h3, h4]
  | succ fuel ih =>
    intro wC h1 h2
    by_cases hlt : wC < weights.dim 1
    · have hi : inputActOf inputs weights wC < inputs.dim 1 := by
        unfold inputActOf
        split <;> omega
      obtain ⟨d, hd⟩ : ∃ d, weights.dim 1 - wC = d + 1 := ⟨weights.dim 1 - wC - 1, by omega⟩
      have hd2 : weights.dim 1 - (wC + 1) = d := by omega
      have ih1 := ih (wC + 1) (by omega) (by omega)
      rw [hd2] at ih1
      rw [hd, List.range'_succ, List.map_cons]
      by_cases heq : inputs.dim 1 = weights.dim 1
      · have e1 : ∀ a, inputActOf inputs weights a = a := by
          intro a; simp [inputActOf, heq]
        simp only [e1] at ih1 ⊢
        rw [actLoop]
        simp only [heq, hlt, and_self, if_true]
        have : actOffsetAt weights W wC + weights.tileDim (weights.idx W wC) 1
            = actOffsetAt weights W (wC + 1) := rfl
        rw [this, ih1]
        simp [RunResult.after]
      · have h1i : inputs.dim 1 = 1 := by
          rcases hacc with h | h
          · exact absurd h heq
          · exact h
        have e1 : ∀ a, inputActOf inputs weights a = 0 := by
          intro a; simp [inputActOf, heq]
        simp only [e1] at ih1 ⊢
        have h01 : (0 : Nat) < inputs.dim 1 := by omega
        rw [actLoop, if_pos ⟨h01, hlt⟩, if_neg heq, if_pos h1i]
        have : actOffsetAt weights W wC + weights.tileDim (weights.idx W wC) 1
            = actOffsetAt weights W (wC + 1) := rfl
        rw [this, ih1]
        simp [RunResult.after]
    · have h3 : weights.dim 1 - wC = 0 := by omega
      simp [actLoop, h3, hlt]

theorem actLoop_accepted_zero (inputs weights outputs : TiledTensor)
    (N W fin : Nat) (send : Bool)
    (hacc : inputs.dim 1 = weights.dim 1 ∨ inputs.dim 1 = 1) :
    actLoop inputs weights outputs N W fin send (weights.dim 1) 0 0 0
      = ⟨(List.range (weights.dim 1)).map (fun a =>
          kernelCall inputs weights outputs N W fin send (inputActOf inputs weights a) a
            (actOffsetAt weights W a)), Status.ok⟩ := by
  have h := actLoop_accepted inputs weights outputs N W fin send hacc (weights.dim 1) 0
    (Nat.zero_le _) (by omega)
  have e0 : inputActOf inputs weights 0 = 0 := by simp [inputActOf]
  rw [e0] at h
  simpa [List.range_eq_range', actOffsetAt] using h

theorem neuronLoop_accepted (inputs weights outputs : TiledTensor) (N : Nat)
    (hacc : inputs.dim 1 = weights.dim 1 ∨ inputs.dim 1 = 1) :
    ∀ (rem W : Nat),
      neuronLoop inputs weights outputs N rem W (finishedAt weights W)
        = ⟨(List.range' W rem).flatMap (fun w =>
            (List.range (weights.dim 1)).map (fun a => callAt inputs weights outputs N w a)),
           Status.ok⟩ := by
  intro rem
  induction rem with
  | zero => intro W; simp [neuronLoop]
  | succ rem ih =>
    intro W
    rw [neuronLoop]
    simp only [actLoop_accepted_zero inputs weights outputs N W _ _ hacc]
    have : finishedAt weights W + weights.tileDim (weights.idx W 0) 0
        = finishedAt weights (W + 1) := rfl
    rw [this, ih (W + 1), List.range'_succ, List.flatMap_cons]
    simp [RunResult.after, callAt]

theorem batchLoop_accepted (inputs weights outputs : TiledTensor)
    (hacc : inputs.dim 1 = weights.dim 1 ∨ inputs.dim 1 = 1) :
    ∀ (rem N : Nat),
      batchLoop inputs weights outputs rem N
        = ⟨(List.range' N rem).flatMap (fun n =>
            (List.range (weights.dim 0)).flatMap (fun w =>
              (List.range (weights.dim 1)).map (fun a => callAt inputs weights outputs n w a))),
           Status.ok⟩ := by
  intro rem
  induction rem with
  | zero => intro N; simp [batchLoop]
  | succ rem ih =>
    intro N
    rw [batchLoop]
    have h := neuronLoop_accepted inputs weights outputs N hacc (weights.dim 0) 0
    simp only [finishedAt] at h
    simp only [h]
    rw [ih (N + 1), List.range'_succ, List.flatMap_cons]
    simp [RunResult.after, List.range_eq_range']

/-- Closed form of an accepted run: one output tile, and the inputs have as
many activation tiles as the weights, or one. -/
theorem runNWA_accepted (inputs weights outputs : TiledTensor)
    (hout : outputs.size = 1)
    (hacc : inputs.dim 1 = weights.dim 1 ∨ inputs.dim 1 = 1) :
    runNWA inputs weights outputs
      = ⟨(List.range (inputs.dim 0)).flatMap (fun n =>
          (List.range (weights.dim 0)).flatMap (fun w =>
            (List.range (weights.dim 1)).map (fun a => callAt inputs weights outputs n w a))),
         Status.ok⟩ := by
  rw [runNWA, if_pos hout, batchLoop_accepted inputs weights outputs hacc]
  simp [List.range_eq_range']

/-! ### Runs that stop at the assertion, and runs that issue nothing -/

theorem actLoop_rejected (inputs weights outputs : TiledTensor)
    (N W fin : Nat) (send : Bool)
    (hne : inputs.dim 1 ≠ weights.dim 1) (hne1 : inputs.dim 1 ≠ 1)
    (hi : 0 < inputs.dim 1) (hw : 0 < weights.dim 1) :
    actLoop inputs weights outputs N W fin send (weights.dim 1) 0 0 0
      = ⟨[kernelCall inputs weights outputs N W fin send 0 0 0], Status.assertFailed⟩ := by
  obtain ⟨k, hk⟩ : ∃ k, weights.dim 1 = k + 1 := ⟨weights.dim 1 - 1, by omega⟩
  conv_lhs => rw [hk]
  rw [actLoop, if_pos ⟨hi, hw⟩, if_neg hne, if_neg hne1]

theorem actLoop_no_tiles (inputs weights outputs : TiledTensor)
    (N W fin : Nat) (send : Bool) (h : inputs.dim 1 = 0 ∨ weights.dim 1 = 0)
    (fuel iC wC off : Nat) :
    actLoop inputs weights outputs N W fin send fuel iC wC off = ⟨[], Status.ok⟩ := by
  have hn : ¬ (iC < inputs.dim 1 ∧ wC < weights.dim 1) := by omega
  cases fuel with
  | zero => rw [actLoop, if_neg hn]
  | succ f => rw [actLoop, if_neg hn]

theorem neuronLoop_no_tiles (inputs weights outputs : TiledTensor) (N : Nat)
    (h : inputs.dim 1 = 0 ∨ weights.dim 1 = 0) :
    ∀ (rem W fin : Nat), neuronLoop inputs weights outputs N rem W fin = ⟨[], Status.ok⟩ := by
  intro rem
  induction rem with
  | zero => intro W fin; rfl
  | succ rem ih =>
    intro W fin
    rw [neuronLoop]
    simp only [actLoop_no_tiles inputs weights outputs N W fin _ h, ih]
    rfl

theorem batchLoop_no_tiles (inputs weights outputs : TiledTensor)
    (h : inputs.dim 1 = 0 ∨ weights.dim 1 = 0 ∨ weights.dim 0 = 0) :
    ∀ (rem N : Nat), batchLoop inputs weights outputs rem N = ⟨[], Status.ok⟩ := by
  intro rem
  induction rem with
  | zero => intro N; rfl
  | succ rem ih =>
    intro N
    rw [batchLoop]
    have hn : neuronLoop inputs weights outputs N (weights.dim 0) 0 0 = ⟨[], Status.ok⟩ := by
      rcases h with h | h | h
      · exact neuronLoop_no_tiles inputs weights outputs N (Or.inl h) _ _ _
      · exact neuronLoop_no_tiles inputs weights outputs N (Or.inr h) _ _ _
      · rw [h]; rfl
    simp only [hn, ih]
    rfl

/-- A run over a grid with no tile along some loop dimension issues nothing
and completes. -/
theorem runNWA_no_tiles (inputs weights outputs : TiledTensor)
    (hout : outputs.size = 1)
    (h : inputs.dim 0 = 0 ∨ inputs.dim 1 = 0 ∨ weights.dim 1 = 0 ∨ weights.dim 0 = 0) :
    runNWA inputs weights outputs = ⟨[], Status.ok⟩ := by
  rw [runNWA, if_pos hout]
  rcases h with h | h
  · rw [h]; rfl
  · exact batchLoop_no_tiles inputs weights outputs h _ _

/-- Closed form of a rejected run: the first kernel call is issued, then the
assertion on the tile counts fails. -/
theorem runNWA_rejected (inputs weights outputs : TiledTensor)
    (hout : outputs.size = 1)
    (hne : inputs.dim 1 ≠ weights.dim 1) (hne1 : inputs.dim 1 ≠ 1)
    (hb : 0 < inputs.dim 0) (hn : 0 < weights.dim 0)
    (hi : 0 < inputs.dim 1) (hw : 0 < weights.dim 1) :
    runNWA inputs weights outputs
      = ⟨[kernelCall inputs weights outputs 0 0 0
            (decide (((0 : Nat) : Int) = (weights.dim 0 : Int) - 1)) 0 0 0],
         Status.assertFailed⟩ := by
  obtain ⟨b, hb1⟩ : ∃ b, inputs.dim 0 = b + 1 := ⟨inputs.dim 0 - 1, by omega⟩
  obtain ⟨n, hn1⟩ : ∃ n, weights.dim 0 = n + 1 := ⟨weights.dim 0 - 1, by omega⟩
  have hnl : neuronLoop inputs weights outputs 0 (weights.dim 0) 0 0
      = ⟨[kernelCall inputs weights outputs 0 0 0
            (decide (((0 : Nat) : Int) = (weights.dim 0 : Int) - 1)) 0 0 0],
         Status.assertFailed⟩ := by
    conv_lhs => rw [hn1, neuronLoop]
    simp only [actLoop_rejected inputs weights outputs 0 0 0 _ hne hne1 hi hw]
  rw [runNWA, if_pos hout, hb1, batchLoop]
  simp only [hnl]

/-! ### Properties of every issued call -/

theorem actLoop_flags (inputs weights outputs : TiledTensor)
    (N W fin : Nat) (send : Bool) :
    ∀ (fuel iC wC off : Nat),
      ∀ c ∈ (actLoop inputs weights outputs N W fin send fuel iC wC off).calls,
        c.batch = N ∧ c.neuron = W ∧ c.accumulate = decide (c.wC > 0) ∧ c.sendOutputs = send ∧
          c.inputTile = inputs.idx c.batch c.iC ∧ c.weightsTile = weights.idx c.neuron c.wC := by
  intro fuel
  induction fuel with
  | zero =>
    intro iC wC off c hc
    rw [actLoop] at hc
    split at hc <;> simp at hc
  | succ fuel ih =>
    intro iC wC off c hc
    rw [actLoop] at hc
    split at hc
    · split at hc
      · rw [after_calls] at hc
        rcases List.mem_append.1 hc with h | h
        · simp only [List.mem_singleton] at h
          subst h
          simp [kernelCall]
        · exact ih _ _ _ c h
      · split at hc
        · rw [after_calls] at hc
          rcases List.mem_append.1 hc with h | h
          · simp only [List.mem_singleton] at h
            subst h
            simp [kernelCall]
          · exact ih _ _ _ c h
        · simp only [List.mem_singleton] at hc
          subst hc
          simp [kernelCall]
    · simp at hc

theorem neuronLoop_flags (inputs weights outputs : TiledTensor) (N : Nat) :
    ∀ (rem W fin : Nat),
      ∀ c ∈ (neuronLoop inputs weights outputs N rem W fin).calls,
        c.batch = N ∧ c.accumulate = decide (c.wC > 0) ∧
          c.sendOutputs = decide ((c.neuron : Int) = (weights.dim 0 : Int) - 1) ∧
          c.inputTile = inputs.idx c.batch c.iC ∧ c.weightsTile = weights.idx c.neuron c.wC := by
  intro rem
  induction rem with
  | zero => intro W fin c hc; simp [neuronLoop] at hc
  | succ rem ih =>
    intro W fin c hc
    rw [neuronLoop] at hc
    have hact := actLoop_flags inputs weights outputs N W fin
      (decide ((W : Int) = (weights.dim 0 : Int) - 1)) (weights.dim 1) 0 0 0
    split at hc
    · rw [after_calls] at hc
      rcases List.mem_append.1 hc with h | h
      · obtain ⟨h1, h2, h3, h4, h5, h6⟩ := hact c h
        exact ⟨h1, h3, by rw [h4, h2], h5, h6⟩
      · exact ih _ _ c h
    · obtain ⟨h1, h2, h3, h4, h5, h6⟩ := hact c hc
      exact ⟨h1, h3, by rw [h4, h2], h5, h6⟩

theorem batchLoop_flags (inputs weights outputs : TiledTensor) :
    ∀ (rem N : Nat),
      ∀ c ∈ (batchLoop inputs weights outputs rem N).calls,
        c.accumulate = decide (c.wC > 0) ∧
          c.sendOutputs = decide ((c.neuron : Int) = (weights.dim 0 : Int) - 1) ∧
          c.inputTile = inputs.idx c.batch c.iC ∧ c.weightsTile = weights.idx c.neuron c.wC := by
  intro rem
  induction rem with
  | zero => intro N c hc; simp [batchLoop] at hc
  | succ rem ih =>
    intro N c hc
    rw [batchLoop] at hc
    have hn := neuronLoop_flags inputs weights outputs N (weights.dim 0) 0 0
    split at hc
    · rw [after_calls] at hc
      rcases List.mem_append.1 hc with h | h
      · exact (hn c h).2
      · exact ih _ c h
    · exact (hn c hc).2

/-! ### Selecting the calls of one loop iteration -/

theorem filter_flatMap_range_none {α : Type} (f : Nat → List α) (key : α → Nat)
    (hkey : ∀ n, ∀ x ∈ f n, key x = n) (k : Nat) :
    ∀ B, B ≤ k → ((List.range B).flatMap f).filter (fun x => decide (key x = k)) = [] := by
  intro B
  induction B with
  | zero => intro _; rfl
  | succ B ih =>
    intro hB
    rw [List.range_succ, List.flatMap_append, List.filter_append, ih (by omega)]
    simp only [List.flatMap_cons, List.flatMap_nil, List.append_nil, List.nil_append]
    rw [List.filter_eq_nil_iff]
    intro x hx
    have := hkey B x hx
    simp only [decide_eq_true_eq]
    omega

theorem filter_flatMap_range_key {α : Type} (f : Nat → List α) (key : α → Nat)
    (hkey : ∀ n, ∀ x ∈ f n, key x = n) (k : Nat) :
    ∀ B, k < B → ((List.range B).flatMap f).filter (fun x => decide (key x = k)) = f k := by
  intro B
  induction B with
  | zero => intro h; omega
  | succ B ih =>
    intro hB
    rw [List.range_succ, List.flatMap_append, List.filter_append]
    simp only [List.flatMap_cons, List.flatMap_nil, List.append_nil]
    by_cases hk : k < B
    · rw [ih hk]
      have : (f B).filter (fun x => decide (key x = k)) = [] := by
        rw [List.filter_eq_nil_iff]
        intro x hx
        have := hkey B x hx
        simp only [decide_eq_true_eq]
        omega
      rw [this, List.append_nil]
    · have hkB : k = B := by omega
      subst hkB
      rw [filter_flatMap_range_none f key hkey k k (Nat.le_refl _), List.nil_append]
      rw [List.filter_eq_self]
      intro x hx
      simp [hkey k x hx]

theorem length_flatMap_range {α : Type} (f : Nat → List α) (k : Nat)
    (hlen : ∀ n, (f n).length = k) :
    ∀ B, ((List.range B).flatMap f).length = B * k := by
  intro B
  induction B with
  | zero => simp
  | succ B ih =>
    rw [List.range_succ, List.flatMap_append, List.length_append, ih]
    simp only [List.flatMap_cons, List.flatMap_nil, List.append_nil, hlen]
    ring

/-- The calls of an accepted run that belong to batch tile `N` and
weight-neuron tile `W`, in the order of issue. -/
theorem runNWA_calls_of_tile (inputs weights outputs : TiledTensor)
    (hout : outputs.size = 1)
    (hacc : inputs.dim 1 = weights.dim 1 ∨ inputs.dim 1 = 1)
    (N W : Nat) (hN : N < inputs.dim 0) (hW : W < weights.dim 0) :
    (runNWA inputs weights outputs).calls.filter
        (fun c => decide (c.batch = N) && decide (c.neuron = W))
      = (List.range (weights.dim 1)).map (fun a => callAt inputs weights outputs N W a) := by
  rw [runNWA_accepted inputs weights outputs hout hacc]
  simp only
  have hswap : (fun c : KernelCall => decide (c.batch = N) && decide (c.neuron = W))
      = (fun c => decide (c.neuron = W) && decide (c.batch = N)) := by
    funext c; exact Bool.and_comm _ _
  rw [hswap, ← List.filter_filter]
  have h1 := filter_flatMap_range_key
    (fun n => (List.range (weights.dim 0)).flatMap (fun w =>
      (List.range (weights.dim 1)).map (fun a => callAt inputs weights outputs n w a)))
    (fun c => c.batch)
    (by
      intro n x hx
      simp only [List.mem_flatMap, List.mem_map] at hx
      obtain ⟨w, _, a, _, rfl⟩ := hx
      rfl)
    N _ hN
  have h2 := filter_flatMap_range_key
    (fun w => (List.range (weights.dim 1)).map (fun a => callAt inputs weights outputs N w a))
    (fun c => c.neuron)
    (by
      intro n x hx
      simp only [List.mem_map] at hx
      obtain ⟨a, _, rfl⟩ := hx
      rfl)
    W _ hW
  simp only at h1 h2
  rw [h1, h2]

/-! ### Claims about `runNWA` -/

/-- C3 (code defect, evaluated): with 1 batch tile, 2 weight-neuron tiles and 2
activation tiles, the single output tile is written by four kernel calls and
two of them, both activation tiles of the last weight-neuron tile, carry
`sendOutputs = true`; the flush is not issued exactly once. -/
theorem runNWA_flush_issued_twice :
    ((runNWA (grid 1 2 (fun _ _ => [1, 4])) (grid 2 2 (fun _ _ => [3, 4]))
        (grid 1 1 (fun _ _ => [1, 6]))).calls.filter
          (fun c => decide (c.outputTile = 0))).map (fun c => c.sendOutputs)
      = [false, false, true, true] := by
  decide

/-- C4 (counterexample): with 1 batch tile, 2 weight-neuron tiles and 2
activation tiles, a kernel call that writes output tile 0 and is not the first
such call is issued with `accumulate = false` (the call at weight-neuron tile
1, activation tile 0). -/
theorem runNWA_accumulate_counterexample :
    ¬ ∀ c ∈ ((runNWA (grid 1 2 (fun _ _ => [1, 4])) (grid 2 2 (fun _ _ => [3, 4]))
        (grid 1 1 (fun _ _ => [1, 6]))).calls.filter
          (fun c => decide (c.outputTile = 0))).tail, c.accumulate = true := by
  decide

/-- C4 (amended): in an accepted run, among the kernel calls of batch tile `N`
and weight-neuron tile `W`, taken in the order of issue, the first is issued
with `accumulate = false` and every later one with `accumulate = true`. -/
theorem runNWA_accumulate_within_neuron_tile (inputs weights outputs : TiledTensor)
    (hout : outputs.size = 1)
    (hacc : inputs.dim 1 = weights.dim 1 ∨ inputs.dim 1 = 1)
    (N W : Nat) (hN : N < inputs.dim 0) (hW : W < weights.dim 0) :
    ((runNWA inputs weights outputs).calls.filter
        (fun c => decide (c.batch = N) && decide (c.neuron = W))).map (fun c => c.accumulate)
      = (List.range (weights.dim 1)).map (fun a => decide (a > 0)) := by
  rw [runNWA_calls_of_tile inputs weights outputs hout hacc N W hN hW, List.map_map]
  rfl

theorem runNWA_accumulate_within_neuron_tile_witness :
    ((runNWA (grid 1 1 (fun _ _ => [1, 12])) (grid 2 3 (fun _ _ => [3, 4]))
        (grid 1 1 (fun _ _ => [1, 6]))).calls.filter
          (fun c => decide (c.batch = 0) && decide (c.neuron = 1))).map (fun c => c.accumulate)
      = (List.range 3).map (fun a => decide (a > 0)) :=
  runNWA_accumulate_within_neuron_tile (grid 1 1 (fun _ _ => [1, 12]))
    (grid 2 3 (fun _ _ => [3, 4])) (grid 1 1 (fun _ _ => [1, 6]))
    (by decide) (by decide) 0 1 (by decide) (by decide)

/-- C6: every kernel call `runNWA` issues, on any grid, has
`accumulate = (wC > 0)` and `sendOutputs = (W == weightNeuronTiles - 1)`, for the
weight-neuron tile `W` and the weight activation tile `wC` of the call, which
are the coordinates of the weight tile it is given (as `batch` and `iC` are
those of its input tile). -/
theorem runNWA_flags (inputs weights outputs : TiledTensor) :
    ∀ c ∈ (runNWA inputs weights outputs).calls,
      c.accumulate = decide (c.wC > 0) ∧
      c.sendOutputs = decide ((c.neuron : Int) = (weights.dim 0 : Int) - 1) ∧
      c.inputTile = inputs.idx c.batch c.iC ∧ c.weightsTile = weights.idx c.neuron c.wC := by
  intro c hc
  rw [runNWA] at hc
  split at hc
  · exact batchLoop_flags inputs weights outputs _ _ c hc
  · simp at hc

theorem runNWA_flags_witness :
    (kernelCall (grid 1 2 (fun _ _ => [1, 4])) (grid 2 2 (fun _ _ => [3, 4]))
        (grid 1 1 (fun _ _ => [1, 6])) 0 1 3 true 1 1 4
      ∈ (runNWA (grid 1 2 (fun _ _ => [1, 4])) (grid 2 2 (fun _ _ => [3, 4]))
          (grid 1 1 (fun _ _ => [1, 6]))).calls) ∧
    (kernelCall (grid 1 2 (fun _ _ => [1, 4])) (grid 2 2 (fun _ _ => [3, 4]))
        (grid 1 1 (fun _ _ => [1, 6])) 0 1 3 true 1 1 4).accumulate = decide (1 > 0) ∧
    (kernelCall (grid 1 2 (fun _ _ => [1, 4])) (grid 2 2 (fun _ _ => [3, 4]))
        (grid 1 1 (fun _ _ => [1, 6])) 0 1 3 true 1 1 4).sendOutputs
      = decide (((1 : Nat) : Int) = (((grid 2 2 (fun _ _ => [3, 4])).dim 0 : Nat) : Int) - 1) :=
  ⟨by decide,
   (runNWA_flags (grid 1 2 (fun _ _ => [1, 4])) (grid 2 2 (fun _ _ => [3, 4]))
    (grid 1 1 (fun _ _ => [1, 6])) _ (by decide)).1,
   (runNWA_flags (grid 1 2 (fun _ _ => [1, 4])) (grid 2 2 (fun _ _ => [3, 4]))
    (grid 1 1 (fun _ _ => [1, 6])) _ (by decide)).2.1⟩

/-- C8 (counterexample): with 3 input activation tiles against 2 weight
activation tiles `runNWA` stops at its assertion, and it has issued a kernel
call by then. -/
theorem runNWA_call_before_failure :
    (runNWA (grid 1 3 (fun _ _ => [1, 4])) (grid 2 2 (fun _ _ => [3, 6]))
        (grid 1 1 (fun _ _ => [1, 6]))).status = Status.assertFailed ∧
    (runNWA (grid 1 3 (fun _ _ => [1, 4])) (grid 2 2 (fun _ _ => [3, 6]))
        (grid 1 1 (fun _ _ => [1, 6]))).calls.length ≠ 0 := by
  decide

/-- C8 (amended): whenever `runNWA`, on a grid with one output tile, stops at
the assertion on the activation-tile counts, it has issued exactly one kernel
call before, the one for batch tile 0, weight-neuron tile 0 and the tiles
`(0, 0)` of inputs and weights. -/
theorem runNWA_one_call_before_failure (inputs weights outputs : TiledTensor)
    (hout : outputs.size = 1)
    (hfail : (runNWA inputs weights outputs).status = Status.assertFailed) :
    (runNWA inputs weights outputs).calls.length = 1 ∧
    (runNWA inputs weights outputs).calls.map (fun c => (c.batch, c.neuron, c.iC, c.wC))
      = [(0, 0, 0, 0)] := by
  by_cases hacc : inputs.dim 1 = weights.dim 1 ∨ inputs.dim 1 = 1
  · rw [runNWA_accepted inputs weights outputs hout hacc] at hfail
    simp at hfail
  · by_cases hz : inputs.dim 0 = 0 ∨ inputs.dim 1 = 0 ∨ weights.dim 1 = 0 ∨ weights.dim 0 = 0
    · rw [runNWA_no_tiles inputs weights outputs hout hz] at hfail
      simp at hfail
    · rw [runNWA_rejected inputs weights outputs hout (by omega) (by omega) (by omega)
        (by omega) (by omega) (by omega)]
      exact ⟨rfl, rfl⟩

theorem runNWA_one_call_before_failure_witness :
    (runNWA (grid 2 4 (fun _ _ => [1, 4])) (grid 3 2 (fun _ _ => [3, 8]))
        (grid 1 1 (fun _ _ => [2, 9]))).calls.length = 1 :=
  (runNWA_one_call_before_failure (grid 2 4 (fun _ _ => [1, 4]))
    (grid 3 2 (fun _ _ => [3, 8])) (grid 1 1 (fun _ _ => [2, 9]))
    (by decide) (by decide)).1

/-! ### Running values passed to the kernel -/

theorem finishedAt_eq_sum (weights : TiledTensor) : ∀ W,
    finishedAt weights W
      = ((List.range W).map (fun w => weights.tileDim (weights.idx w 0) 0)).sum
  | 0 => rfl
  | W + 1 => by
    rw [finishedAt, finishedAt_eq_sum weights W, List.range_succ, List.map_append,
      List.sum_append]
    simp

theorem actOffsetAt_eq_sum (weights : TiledTensor) (W : Nat) : ∀ A,
    actOffsetAt weights W A
      = ((List.range A).map (fun a => weights.tileDim (weights.idx W a) 1)).sum
  | 0 => rfl
  | A + 1 => by
    rw [actOffsetAt, actOffsetAt_eq_sum weights W A, List.range_succ, List.map_append,
      List.sum_append]
    simp

/-- Every kernel call of every run, completed or not, is the call of the
closed form at its loop counters. -/
theorem runNWA_call_eq_callAt (inputs weights outputs : TiledTensor) :
    ∀ c ∈ (runNWA inputs weights outputs).calls,
      c = callAt inputs weights outputs c.batch c.neuron c.wC := by
  intro c hc
  by_cases hout : outputs.size = 1
  · by_cases hacc : inputs.dim 1 = weights.dim 1 ∨ inputs.dim 1 = 1
    · rw [runNWA_accepted inputs weights outputs hout hacc] at hc
      simp only [List.mem_flatMap, List.mem_map] at hc
      obtain ⟨n, _, w, _, a, _, rfl⟩ := hc
      rfl
    · by_cases hz : inputs.dim 0 = 0 ∨ inputs.dim 1 = 0 ∨ weights.dim 1 = 0 ∨ weights.dim 0 = 0
      · rw [runNWA_no_tiles inputs weights outputs hout hz] at hc
        simp at hc
      · rw [runNWA_rejected inputs weights outputs hout (by omega) (by omega) (by omega)
          (by omega) (by omega) (by omega)] at hc
        simp only [List.mem_singleton] at hc
        subst hc
        simp [callAt, kernelCall, finishedAt, actOffsetAt, inputActOf]
  · rw [runNWA, if_neg hout] at hc
    simp at hc

/-- C12: in every kernel call of `runNWA`, at weight-neuron tile `W`, the
argument `finishedNeurons` is the sum over all `w < W` of the dimension-0 size
of weight tile `(w, 0)`; the value does not depend on the batch tile, and it
is 0 at the first weight-neuron tile of each batch tile. -/
theorem runNWA_finishedNeurons (inputs weights outputs : TiledTensor) :
    ∀ c ∈ (runNWA inputs weights outputs).calls,
      c.finishedNeurons
        = ((List.range c.neuron).map (fun w => weights.tileDim (weights.idx w 0) 0)).sum := by
  intro c hc
  rw [← finishedAt_eq_sum]
  have h := runNWA_call_eq_callAt inputs weights outputs c hc
  exact congrArg KernelCall.finishedNeurons h

theorem runNWA_finishedNeurons_witness :
    (kernelCall (grid 2 1 (fun _ _ => [1, 8])) (grid 3 2 (fun i _ => [i + 2, 4]))
        (grid 1 1 (fun _ _ => [2, 9])) 1 2 5 true 0 1 4
      ∈ (runNWA (grid 2 1 (fun _ _ => [1, 8])) (grid 3 2 (fun i _ => [i + 2, 4]))
          (grid 1 1 (fun _ _ => [2, 9]))).calls) ∧
    (kernelCall (grid 2 1 (fun _ _ => [1, 8])) (grid 3 2 (fun i _ => [i + 2, 4]))
        (grid 1 1 (fun _ _ => [2, 9])) 1 2 5 true 0 1 4).finishedNeurons
      = ((List.range 2).map (fun w =>
          (grid 3 2 (fun i _ => [i + 2, 4])).tileDim
            ((grid 3 2 (fun i _ => [i + 2, 4])).idx w 0) 0)).sum :=
  ⟨by decide,
   runNWA_finishedNeurons (grid 2 1 (fun _ _ => [1, 8])) (grid 3 2 (fun i _ => [i + 2, 4]))
    (grid 1 1 (fun _ _ => [2, 9])) _ (by decide)⟩

/-- C13: in every kernel call of `runNWA` the argument `actStart` is 0 when the
input and the weight activation-tile indices coincide, hence in every call
when the two tile counts are equal; and when the inputs have one activation
tile and the weights more than one, at weight activation tile `A ≥ 1` of
weight-neuron tile `W` it is the sum of the dimension-1 sizes of the weight
tiles `(W, 0), ..., (W, A - 1)`. -/
theorem runNWA_actStart (inputs weights outputs : TiledTensor) :
    ∀ c ∈ (runNWA inputs weights outputs).calls,
      (c.iC = c.wC → c.actStart = 0) ∧
      (inputs.dim 1 = weights.dim 1 → c.actStart = 0) ∧
      (inputs.dim 1 = 1 → 1 < weights.dim 1 → 1 ≤ c.wC →
        c.actStart
          = ((List.range c.wC).map (fun a =>
              weights.tileDim (weights.idx c.neuron a) 1)).sum) := by
  intro c hc
  have h := runNWA_call_eq_callAt inputs weights outputs c hc
  have hi : c.iC = inputActOf inputs weights c.wC := by
    have := congrArg KernelCall.iC h
    simpa [callAt, kernelCall] using this
  have hs : c.actStart = if c.iC = c.wC then 0 else actOffsetAt weights c.neuron c.wC := by
    have := congrArg KernelCall.actStart h
    rw [this]
    simp only [callAt, kernelCall]
    rw [← hi]
  refine ⟨?_, ?_, ?_⟩
  · intro heq
    rw [hs, if_pos heq]
  · intro heq
    have : c.iC = c.wC := by rw [hi, inputActOf, if_pos heq]
    rw [hs, if_pos this]
  · intro h1 hw hA
    have hne : inputs.dim 1 ≠ weights.dim 1 := by omega
    have : c.iC ≠ c.wC := by
      rw [hi, inputActOf, if_neg hne]
      omega
    rw [hs, if_neg this, actOffsetAt_eq_sum]

theorem runNWA_actStart_witness :
    (kernelCall (grid 2 1 (fun _ _ => [1, 8])) (grid 3 3 (fun _ j => [2, j + 3]))
        (grid 1 1 (fun _ _ => [2, 9])) 0 1 2 false 0 2 7
      ∈ (runNWA (grid 2 1 (fun _ _ => [1, 8])) (grid 3 3 (fun _ j => [2, j + 3]))
          (grid 1 1 (fun _ _ => [2, 9]))).calls) ∧
    (kernelCall (grid 2 1 (fun _ _ => [1, 8])) (grid 3 3 (fun _ j => [2, j + 3]))
        (grid 1 1 (fun _ _ => [2, 9])) 0 1 2 false 0 2 7).actStart
      = ((List.range 2).map (fun a =>
          (grid 3 3 (fun _ j => [2, j + 3])).tileDim
            ((grid 3 3 (fun _ j => [2, j + 3])).idx 1 a) 1)).sum :=
  ⟨by decide,
   (runNWA_actStart (grid 2 1 (fun _ _ => [1, 8])) (grid 3 3 (fun _ j => [2, j + 3]))
    (grid 1 1 (fun _ _ => [2, 9])) _ (by decide)).2.2 (by decide) (by decide) (by decide)⟩

/-- C14: when the outputs tiled tensor does not have exactly one tile, `runNWA`
stops at its first assertion and issues no kernel call. -/
theorem runNWA_rejects_output_tiling (inputs weights outputs : TiledTensor)
    (hout : outputs.size ≠ 1) :
    (runNWA inputs weights outputs).status = Status.assertFailed ∧
    (runNWA inputs weights outputs).calls = [] := by
  rw [runNWA, if_neg hout]
  exact ⟨rfl, rfl⟩

theorem runNWA_rejects_output_tiling_witness :
    (runNWA (grid 2 2 (fun _ _ => [1, 4])) (grid 2 2 (fun _ _ => [3, 4]))
        (grid 2 1 (fun _ _ => [1, 6]))).status = Status.assertFailed ∧
    (runNWA (grid 2 2 (fun _ _ => [1, 4])) (grid 2 2 (fun _ _ => [3, 4]))
        (grid 2 1 (fun _ _ => [1, 6]))).calls = [] :=
  runNWA_rejects_output_tiling (grid 2 2 (fun _ _ => [1, 4])) (grid 2 2 (fun _ _ => [3, 4]))
    (grid 2 1 (fun _ _ => [1, 6])) (by decide)

/-! ## Theorems: tile-copy engine -/

theorem memcpy_inside {α : Type} (m : Nat → α) (d : Nat) (s : Nat → α) (so n e : Nat)
    (h : e < n) : memcpy m d s so n (d + e) = s (so + e) := by
  unfold memcpy
  rw [if_pos (by omega)]
  congr 1
  omega

/-! ### The contiguous block found by `copyTensorRegion` -/

/-- C1 (code defect, evaluated): the source is a 2 x 4 tensor without
alignment (8 elements of storage, `src[k] = k + 1`), the destination a 2 x 4
tensor of alignment 8 (16 elements of storage, filled with 0), and the region
is the whole 2 x 4 at the origin, inside both. The default build issues one
`memcpy` of 8 elements, the block computed with the source's alignment, inside
both buffers; it fills the first destination row and its padding, and the
destination element at `(1, 0)` keeps the value 0, where the source element
is 5. The build with `PEDANTIC` puts 5 there. With the alignments
exchanged (source 8, destination none) the one `memcpy` has 16 elements, and
the destination has 8 elements of storage. -/
theorem copyTensorRegion_alignment_mismatch :
    inBounds [0, 0] [2, 4] [2, 4] = true ∧
    copyTensorRegionCalls ⟨[2, 4], 8⟩ ⟨[2, 4], 0⟩ [0, 0] [0, 0] [2, 4] = some [⟨0, 0, 8⟩] ∧
    (⟨[2, 4], 8⟩ : TensorShape).storageSize = 16 ∧
    (⟨[2, 4], 0⟩ : TensorShape).storageSize = 8 ∧
    (⟨⟨[2, 4], 0⟩, fun k => k + 1⟩ : Tensor Nat).elem [1, 0] = 5 ∧
    (copyTensorRegion (⟨⟨[2, 4], 8⟩, fun _ => 0⟩ : Tensor Nat) ⟨⟨[2, 4], 0⟩, fun k => k + 1⟩
        [0, 0] [0, 0] [2, 4]).map (fun t => t.elem [1, 0]) = some 0 ∧
    (copyTensorRegionPedantic (⟨⟨[2, 4], 8⟩, fun _ => 0⟩ : Tensor Nat)
        ⟨⟨[2, 4], 0⟩, fun k => k + 1⟩ [0, 0] [0, 0] [2, 4]).map (fun t => t.elem [1, 0])
      = some 5 ∧
    copyTensorRegionCalls ⟨[2, 4], 0⟩ ⟨[2, 4], 8⟩ [0, 0] [0, 0] [2, 4] = some [⟨0, 0, 16⟩] := by
  decide

/-- C2 (code defect, evaluated): source and destination are 1 x 16 tensors with
alignment 8 and the region has size 1 x 4 at the origin, inside both. The
destination element at coordinate `(0, 4)` lies outside the region and holds 0
before the call; after `copyTensorRegion` it holds the source element 104:
the bulk copy has the length of the region row padded to the alignment, 8
elements, and overwrites the four elements behind the region. -/
theorem copyTensorRegion_writes_outside_region :
    inBounds [0, 0] [1, 4] [1, 16] = true ∧
    inRegion [0, 4] [1, 16] = true ∧ inRegion [0, 4] [1, 4] = false ∧
    (⟨⟨[1, 16], 8⟩, fun _ => 0⟩ : Tensor Nat).elem [0, 4] = 0 ∧
    (copyTensorRegion (⟨⟨[1, 16], 8⟩, fun _ => 0⟩ : Tensor Nat) ⟨⟨[1, 16], 8⟩, fun k => k + 100⟩
        [0, 0] [0, 0] [1, 4]).map (fun t => t.elem [0, 4]) = some 104 := by
  decide

/-- C10 (code defect, evaluated): `T` is a 1 x 16 tensor of alignment 8 (16
elements of storage), the region has size 1 x 4 at origin `(0, 12)`, inside
`T`, and the fresh tensor `F` has the shape 1 x 4 of the region and the
alignment of `T`. The copy from `T` into `F` is one `memcpy` of 8 elements,
the region row padded to the alignment, that reads `T` from linear index 12
on, and the copy from `F` back into `T'` is one `memcpy` of 8 elements that
writes `T'` from linear index 12 on: the indices 16 to 19 lie behind the
end of `T` and of `T'`.
With `T` of shape 2 x 4 and alignment 8 (`T[k] = k + 1`), the whole of it as
the region and `F` of shape 2 x 4 without alignment (8 elements of storage),
the copy into `F` is one `memcpy` of 16 elements, and after the copy back the
element of `T'` at `(1, 0)` holds the fresh value 0, and it is 9 in `T`. -/
theorem copyTensorRegion_round_trip_past_storage :
    inBounds [0, 12] [1, 4] [1, 16] = true ∧
    (⟨[1, 16], 8⟩ : TensorShape).storageSize = 16 ∧
    copyTensorRegionCalls ⟨[1, 4], 8⟩ ⟨[1, 16], 8⟩ [0, 0] [0, 12] [1, 4]
      = some [⟨0, 12, 8⟩] ∧
    copyTensorRegionCalls ⟨[1, 16], 8⟩ ⟨[1, 4], 8⟩ [0, 12] [0, 0] [1, 4]
      = some [⟨12, 0, 8⟩] ∧
    (⟨[1, 16], 8⟩ : TensorShape).storageSize < 12 + 8 ∧
    copyTensorRegionCalls ⟨[2, 4], 0⟩ ⟨[2, 4], 8⟩ [0, 0] [0, 0] [2, 4] = some [⟨0, 0, 16⟩] ∧
    (⟨[2, 4], 0⟩ : TensorShape).storageSize = 8 ∧
    ((copyTensorRegion (⟨⟨[2, 4], 0⟩, fun _ => 0⟩ : Tensor Nat) ⟨⟨[2, 4], 8⟩, fun k => k + 1⟩
        [0, 0] [0, 0] [2, 4]).bind
      (fun F => (copyTensorRegion (⟨⟨[2, 4], 8⟩, fun _ => 0⟩ : Tensor Nat) F
        [0, 0] [0, 0] [2, 4]).map (fun T' => T'.elem [1, 0]))) = some 0 ∧
    (⟨⟨[2, 4], 8⟩, fun k => k + 1⟩ : Tensor Nat).elem [1, 0] = 9 := by
  decide

/-! ## Theorems: linear copy and forward pass -/

/-- C11: `copyRawTensorData` treats both backing stores as flat arrays:
afterwards `dest[destOffset + k] = src[srcOffset + k]` for every
`k < copySize`, and every destination element at a linear index outside
`[destOffset, destOffset + copySize)` is unchanged. -/
theorem copyRawTensorData_spec {α : Type} (dest src : Tensor α)
    (destOffset srcOffset copySize : Nat) :
    (∀ k, k < copySize →
      (copyRawTensorData dest src destOffset srcOffset copySize).data (destOffset + k)
        = src.data (srcOffset + k)) ∧
    (∀ j, (j < destOffset ∨ destOffset + copySize ≤ j) →
      (copyRawTensorData dest src destOffset srcOffset copySize).data j = dest.data j) := by
  constructor
  · intro k hk
    exact memcpy_inside _ _ _ _ _ _ hk
  · intro j hj
    simp only [copyRawTensorData, memcpy]
    rw [if_neg (by omega)]

theorem copyRawTensorData_spec_witness :
    (copyRawTensorData (⟨⟨[2, 4], 0⟩, fun _ => 0⟩ : Tensor Nat) ⟨⟨[8], 0⟩, fun k => k + 10⟩
        3 2 4).data (3 + 1) = 13 ∧
    (copyRawTensorData (⟨⟨[2, 4], 0⟩, fun _ => 0⟩ : Tensor Nat) ⟨⟨[8], 0⟩, fun k => k + 10⟩
        3 2 4).data 7 = 0 :=
  ⟨(copyRawTensorData_spec (⟨⟨[2, 4], 0⟩, fun _ => 0⟩ : Tensor Nat)
      ⟨⟨[8], 0⟩, fun k => k + 10⟩ 3 2 4).1 1 (by decide),
   (copyRawTensorData_spec (⟨⟨[2, 4], 0⟩, fun _ => 0⟩ : Tensor Nat)
      ⟨⟨[8], 0⟩, fun k => k + 10⟩ 3 2 4).2 7 (by decide)⟩

/-- C20 (code defect, evaluated): for the layer list `FC, SOFTMAX` the only
buffer written is `hid_temp` (by the fully connected layer and its activation
function), and `nnet_fwd` stores 0 into `result_in_temp` of the last layer,
which stands for `hid`: the softmax layer computes nothing but still flips
the flag. -/
theorem nnet_fwd_flag_after_idle_layer :
    nnet_fwd [⟨layer_type.FC, 1, 4, 1, 1, 3, 1, 0⟩, ⟨layer_type.SOFTMAX, 1, 3, 1, 1, 3, 1, 0⟩]
      = (0, [Buffer.hid_temp, Buffer.hid_temp]) := by
  decide

/-! ## Theorems: tiled-tensor generator -/

/-- The ceiling of the quotient: `ceilDiv a b` is the least number of blocks of
size `b` that cover `a`. -/
theorem ceilDiv_le_iff (a b k : Nat) (hb : 0 < b) : ceilDiv a b ≤ k ↔ a ≤ k * b := by
  unfold ceilDiv
  constructor
  · intro h
    have h1 : a + b - 1 < (k + 1) * b := by
      have := Nat.lt_succ_of_le h
      exact (Nat.div_lt_iff_lt_mul hb).1 this
    have e : (k + 1) * b = k * b + b := by ring
    omega
  · intro h
    have h1 : a + b - 1 < (k + 1) * b := by
      have e : (k + 1) * b = k * b + b := by ring
      omega
    have := (Nat.div_lt_iff_lt_mul hb).2 h1
    omega

theorem lt_ceilDiv_iff (a b g : Nat) (hb : 0 < b) : g < ceilDiv a b ↔ g * b < a := by
  have := ceilDiv_le_iff a b g hb
  constructor
  · intro h
    by_contra hc
    exact absurd (this.2 (by omega)) (by omega)
  · intro h
    by_contra hc
    exact absurd (this.1 (by omega)) (by omega)

theorem gridPositions_length : ∀ (ns : List Nat), (gridPositions ns).length = ns.prod
  | [] => rfl
  | n :: ns => by
    rw [gridPositions, length_flatMap_range _ (gridPositions ns).length, gridPositions_length ns,
      List.prod_cons]
    intro i
    simp

theorem mem_gridPositions : ∀ (ns g : List Nat), g ∈ gridPositions ns ↔ inRegion g ns = true
  | [], g => by
    cases g <;> simp [gridPositions, inRegion]
  | n :: ns, [] => by
    simp [gridPositions, inRegion]
  | n :: ns, i :: g => by
    have ih := mem_gridPositions ns g
    simp only [gridPositions, List.mem_flatMap, List.mem_range, List.mem_map, inRegion,
      Bool.and_eq_true, decide_eq_true_eq]
    constructor
    · rintro ⟨j, hj, g', hg', heq⟩
      injection heq with h1 h2
      subst h1 h2
      exact ⟨hj, (mem_gridPositions ns g').1 hg'⟩
    · rintro ⟨hi, hg⟩
      exact ⟨i, hi, g, ih.2 hg, rfl⟩

/-- Where the tile sizes divide the source sizes no tile is clipped. -/
theorem tileRegionAt_dims_of_divides : ∀ (d s g : List Nat), tileFits s d = true →
    dividesAll s d = true → inRegion g (List.zipWith ceilDiv d s) = true →
    (tileRegionAt d s g).2 = s
  | [], [], [], _, _, _ => rfl
  | d :: ds, s :: ss, g :: gs, hfit, hdiv, hg => by
    simp only [tileFits, Bool.and_eq_true, decide_eq_true_eq] at hfit
    simp only [dividesAll, Bool.and_eq_true, decide_eq_true_eq] at hdiv
    simp only [List.zipWith_cons_cons, inRegion, Bool.and_eq_true, decide_eq_true_eq] at hg
    have ih := tileRegionAt_dims_of_divides ds ss gs hfit.2 hdiv.2 hg.2
    have hlt := (lt_ceilDiv_iff d s g (by omega)).1 hg.1
    simp only [tileRegionAt] at ih ⊢
    simp only [List.zipWith_cons_cons, ih]
    congr 1
    obtain ⟨q, hq⟩ := Nat.dvd_of_mod_eq_zero hdiv.1
    subst hq
    have hgq : g < q := by
      by_contra hc
      have : s * q ≤ g * s := by
        rw [Nat.mul_comm s q]
        exact Nat.mul_le_mul_right _ (by omega)
      omega
    have : s * (g + 1) ≤ s * q := Nat.mul_le_mul_left _ hgq
    have e : s * (g + 1) = g * s + s := by ring
    exact Nat.min_eq_left (by omega)
  | [], _ :: _, _, h, _, _ => by simp [tileFits] at h
  | _ :: _, [], _, h, _, _ => by simp [tileFits] at h
  | [], [], _ :: _, _, _, h => by simp [inRegion] at h
  | _ :: _, _ :: _, [], _, _, h => by simp [inRegion] at h

/-- The tiles that `generateTiledTensor` builds on an accepted tile shape. -/
theorem generateTiledTensor_eq {α : Type} (T : Tensor α) (S : TensorShape) (fresh : Nat → α)
    (hfit : tileFits S.dims T.shape.dims = true) :
    generateTiledTensor T S fresh
      = some
        { shape := List.zipWith ceilDiv T.shape.dims S.dims
          tiles := (gridPositions (List.zipWith ceilDiv T.shape.dims S.dims)).map (fun g =>
            { origin := (tileRegionAt T.shape.dims S.dims g).1
              tensor := ⟨⟨(tileRegionAt T.shape.dims S.dims g).2, S.alignment⟩, fresh⟩ }) } := by
  rw [generateTiledTensor, if_pos hfit]
  rfl

/-- C18: for a source tensor and a tile shape of the same rank, every tile
dimension at least 1 and at most the source dimension, and zero halo,
`generateTiledTensor` produces `ceiling(sourceDim / tileDim)` tiles in each
dimension, the total number of tiles is the product over the dimensions, and
when every tile dimension divides the source dimension every tile has the
requested tile shape. -/
theorem generateTiledTensor_tile_count {α : Type} (T : Tensor α) (S : TensorShape)
    (fresh : Nat → α) (hfit : tileFits S.dims T.shape.dims = true) :
    ∃ tiled, generateTiledTensor T S fresh = some tiled ∧
      tiled.shape = List.zipWith ceilDiv T.shape.dims S.dims ∧
      tiled.tiles.length = (List.zipWith ceilDiv T.shape.dims S.dims).prod ∧
      (dividesAll S.dims T.shape.dims = true →
        ∀ t ∈ tiled.tiles, t.tensor.shape.dims = S.dims) := by
  refine ⟨_, generateTiledTensor_eq T S fresh hfit, rfl, ?_, ?_⟩
  · simp only [List.length_map, gridPositions_length]
  · intro hdiv t ht
    simp only [List.mem_map] at ht
    obtain ⟨g, hg, rfl⟩ := ht
    exact tileRegionAt_dims_of_divides _ _ g hfit hdiv ((mem_gridPositions _ g).1 hg)

theorem generateTiledTensor_tile_count_witness :
    (∃ tiled, generateTiledTensor (⟨⟨[1, 16, 16, 128], 8⟩, fun k => k⟩ : Tensor Nat)
        ⟨[1, 16, 16, 64], 8⟩ (fun _ => 0) = some tiled ∧
      tiled.shape = [1, 1, 1, 2] ∧ tiled.tiles.length = 2 ∧
      ∀ t ∈ tiled.tiles, t.tensor.shape.dims = [1, 16, 16, 64]) ∧
    (∃ tiled, generateTiledTensor (⟨⟨[1, 64, 64, 32], 8⟩, fun k => k⟩ : Tensor Nat)
        ⟨[1, 64, 8, 32], 8⟩ (fun _ => 0) = some tiled ∧
      tiled.shape = [1, 1, 8, 1] ∧ tiled.tiles.length = 8 ∧
      ∀ t ∈ tiled.tiles, t.tensor.shape.dims = [1, 64, 8, 32]) ∧
    (∃ tiled, generateTiledTensor (⟨⟨[1, 128, 128, 64], 8⟩, fun k => k⟩ : Tensor Nat)
        ⟨[1, 128, 16, 8], 8⟩ (fun _ => 0) = some tiled ∧
      tiled.shape = [1, 1, 8, 8] ∧ tiled.tiles.length = 64 ∧
      ∀ t ∈ tiled.tiles, t.tensor.shape.dims = [1, 128, 16, 8]) ∧
    (∃ tiled, generateTiledTensor (⟨⟨[1, 32768], 8⟩, fun k => k⟩ : Tensor Nat)
        ⟨[1, 4096], 8⟩ (fun _ => 0) = some tiled ∧
      tiled.shape = [1, 8] ∧ tiled.tiles.length = 8 ∧
      ∀ t ∈ tiled.tiles, t.tensor.shape.dims = [1, 4096]) :=
  ⟨match generateTiledTensor_tile_count (⟨⟨[1, 16, 16, 128], 8⟩, fun k => k⟩ : Tensor Nat)
      ⟨[1, 16, 16, 64], 8⟩ (fun _ => 0) (by decide) with
    | ⟨tiled, h1, h2, h3, h4⟩ =>
      ⟨tiled, h1, h2.trans (by decide), h3.trans (by decide), h4 (by decide)⟩,
   match generateTiledTensor_tile_count (⟨⟨[1, 64, 64, 32], 8⟩, fun k => k⟩ : Tensor Nat)
      ⟨[1, 64, 8, 32], 8⟩ (fun _ => 0) (by decide) with
    | ⟨tiled, h1, h2, h3, h4⟩ =>
      ⟨tiled, h1, h2.trans (by decide), h3.trans (by decide), h4 (by decide)⟩,
   match generateTiledTensor_tile_count (⟨⟨[1, 128, 128, 64], 8⟩, fun k => k⟩ : Tensor Nat)
      ⟨[1, 128, 16, 8], 8⟩ (fun _ => 0) (by decide) with
    | ⟨tiled, h1, h2, h3, h4⟩ =>
      ⟨tiled, h1, h2.trans (by decide), h3.trans (by decide), h4 (by decide)⟩,
   match generateTiledTensor_tile_count (⟨⟨[1, 32768], 8⟩, fun k => k⟩ : Tensor Nat)
      ⟨[1, 4096], 8⟩ (fun _ => 0) (by decide) with
    | ⟨tiled, h1, h2, h3, h4⟩ =>
      ⟨tiled, h1, h2.trans (by decide), h3.trans (by decide), h4 (by decide)⟩⟩

/-! ### Filling the tiles and copying them back -/

/-- C19 (code defect, evaluated): the source is a 1 x 16 tensor of alignment
8 (16 elements of storage) and the tile shape is 1 x 4 with the same
alignment and zero halo. There are four tiles, with origins `(0, 0)`,
`(0, 4)`, `(0, 8)` and `(0, 12)`. Filling a tile is the copy of its 1 x 4
region of the source to the origin of the tile: one `memcpy` of 8 elements,
the region row padded to the alignment. For the last tile it reads the source
from linear index 12 on, so the indices 16 to 19 lie behind its end.
A source of shape 2 x 4 without alignment (`src[k] = k + 1`) with the
tile shape 2 x 4 of alignment 8 has one tile, filled by one `memcpy` of 8
elements inside both buffers; the tile element at `(1, 0)` keeps the
fresh value 0, where the source element is 5. -/
theorem generateTiledTensorAndCopyData_reads_past_source :
    (generateTiledTensor (⟨⟨[1, 16], 8⟩, fun k => k⟩ : Tensor Nat) ⟨[1, 4], 8⟩
        (fun _ => 0)).map (fun tiled => tiled.tiles.map (fun t =>
          (t.origin, copyTensorRegionCalls t.tensor.shape ⟨[1, 16], 8⟩
            (List.replicate t.origin.length 0) t.origin t.tensor.shape.dims)))
      = some [([0, 0], some [⟨0, 0, 8⟩]), ([0, 4], some [⟨0, 4, 8⟩]),
          ([0, 8], some [⟨0, 8, 8⟩]), ([0, 12], some [⟨0, 12, 8⟩])] ∧
    (⟨[1, 16], 8⟩ : TensorShape).storageSize = 16 ∧
    (generateTiledTensorAndCopyData (⟨⟨[2, 4], 0⟩, fun k => k + 1⟩ : Tensor Nat) ⟨[2, 4], 8⟩
        (fun _ => 0)).map (fun tiled => tiled.tiles.map (fun t =>
          (t.origin, t.tensor.elem [1, 0])))
      = some [([0, 0], 0)] ∧
    (⟨⟨[2, 4], 0⟩, fun k => k + 1⟩ : Tensor Nat).elem (sum [0, 0] [1, 0]) = 5 ∧
    copyTensorRegionCalls ⟨[2, 4], 8⟩ ⟨[2, 4], 0⟩ [0, 0] [0, 0] [2, 4] = some [⟨0, 0, 8⟩] := by
  decide

/-- C17 (code defect, evaluated): `T` is a 1 x 16 tensor of alignment 8 (16
elements of storage) and the tile shape is 1 x 4 with the same alignment and
zero halo, which gives four filled tiles. Untiling copies every tile back to
its origin in `T'`, a tensor of the shape of `T`, each by one `memcpy` of 8
elements, the tile row padded to the alignment. For the last tile, at origin
`(0, 12)`, it writes `T'` from linear index 12 on, so the indices 16 to 19
lie behind its end (filling that tile has read `T` at the same indices).
A tensor of shape 2 x 4 with alignment 8 (`T[k] = k + 1`) with the tile
shape 2 x 4 without alignment has one tile of 8 elements of storage, filled by
one `memcpy` of 16 elements; after the round trip the element of `T'` at
`(1, 0)` holds the fresh value 0, and it is 9 in `T`. -/
theorem untileTiledTensor_writes_past_destination :
    (generateTiledTensorAndCopyData (⟨⟨[1, 16], 8⟩, fun k => k⟩ : Tensor Nat) ⟨[1, 4], 8⟩
        (fun _ => 0)).map (fun tiled => tiled.tiles.map (fun t =>
          (t.origin, copyTensorRegionCalls ⟨[1, 16], 8⟩ t.tensor.shape t.origin
            (List.replicate t.origin.length 0) t.tensor.shape.dims)))
      = some [([0, 0], some [⟨0, 0, 8⟩]), ([0, 4], some [⟨4, 0, 8⟩]),
          ([0, 8], some [⟨8, 0, 8⟩]), ([0, 12], some [⟨12, 0, 8⟩])] ∧
    (⟨[1, 16], 8⟩ : TensorShape).storageSize = 16 ∧
    ((generateTiledTensorAndCopyData (⟨⟨[2, 4], 8⟩, fun k => k + 1⟩ : Tensor Nat) ⟨[2, 4], 0⟩
        (fun _ => 0)).bind
      (fun tiled => (untileTiledTensor tiled ⟨⟨[2, 4], 8⟩, fun _ => 0⟩).map
        (fun T' => T'.elem [1, 0]))) = some 0 ∧
    (⟨⟨[2, 4], 8⟩, fun k => k + 1⟩ : Tensor Nat).elem [1, 0] = 9 ∧
    copyTensorRegionCalls ⟨[2, 4], 0⟩ ⟨[2, 4], 8⟩ [0, 0] [0, 0] [2, 4] = some [⟨0, 0, 16⟩] ∧
    (⟨[2, 4], 0⟩ : TensorShape).storageSize = 8 := by
  decide

/-! ## Theorems: tiling optimizer -/

/-- C15: no tiling needed. For every operator whose inputs, weights and
outputs each fit their scratchpad budget untiled, `computeBasicTileShapes`
returns a `TilingConfig` whose inputs, weights and outputs shapes are the
original shapes, whatever the splitting strategies are. -/
theorem computeBasicTileShapes_no_tiling (budget : ScratchpadBudget)
    (strategies : List (TilingConfig → TilingConfig)) (original : TilingConfig)
    (hfit : fitsBudget budget original = true) :
    computeBasicTileShapes budget strategies original = some original := by
  rw [computeBasicTileShapes, if_pos hfit]

theorem computeBasicTileShapes_no_tiling_witness :
    (fitsBudget ⟨32768, 32768, 32768, 2⟩
        ⟨⟨[1, 32, 32, 16], 8⟩, ⟨[4, 16], 8⟩, ⟨[1, 32, 32, 16], 8⟩⟩ = true ∧
      computeBasicTileShapes ⟨32768, 32768, 32768, 2⟩ []
        ⟨⟨[1, 32, 32, 16], 8⟩, ⟨[4, 16], 8⟩, ⟨[1, 32, 32, 16], 8⟩⟩
        = some ⟨⟨[1, 32, 32, 16], 8⟩, ⟨[4, 16], 8⟩, ⟨[1, 32, 32, 16], 8⟩⟩) ∧
    (fitsBudget ⟨32768, 32768, 32768, 2⟩
        ⟨⟨[1, 1024], 8⟩, ⟨[4, 1024], 8⟩, ⟨[1, 1024], 8⟩⟩ = true ∧
      computeBasicTileShapes ⟨32768, 32768, 32768, 2⟩ []
        ⟨⟨[1, 1024], 8⟩, ⟨[4, 1024], 8⟩, ⟨[1, 1024], 8⟩⟩
        = some ⟨⟨[1, 1024], 8⟩, ⟨[4, 1024], 8⟩, ⟨[1, 1024], 8⟩⟩) :=
  ⟨⟨by decide, computeBasicTileShapes_no_tiling _ _ _ (by decide)⟩,
   ⟨by decide, computeBasicTileShapes_no_tiling _ _ _ (by decide)⟩⟩

/-! ## Theorems: build variants and memory bounds of `copyTensorRegion` -/

/-- The copy loop with a state that is rebuilt from a log of its steps: the
state of the loop is the fold of the steps over the log of the loop. -/
theorem regionLoop_log {σ κ : Type} (log : Nat → Nat → κ) (ap : σ → κ → σ) (step : List Nat)
    (st0 : σ) :
    ∀ (fuel : Nat) (destIt srcIt : TensorRegionIndexIterator) (calls : List κ),
      regionLoop (fun destIdx srcIdx st => ap st (log destIdx srcIdx)) step fuel destIt srcIt
          (calls.foldl ap st0)
        = (regionLoop (fun destIdx srcIdx cs => cs ++ [log destIdx srcIdx]) step fuel destIt srcIt
            calls).map (fun cs => cs.foldl ap st0) := by
  intro fuel
  induction fuel with
  | zero =>
    intro destIt srcIt calls
    simp only [regionLoop]
    split <;> rfl
  | succ fuel ih =>
    intro destIt srcIt calls
    simp only [regionLoop]
    split
    · have := ih (destIt.advance step) (srcIt.advance step) (calls ++ [log destIt.index srcIt.index])
      rw [List.foldl_append] at this
      exact this
    · rfl

/-- The destination after `copyTensorRegion` is the result of performing the
`memcpy` calls of `copyTensorRegionCalls` in order. -/
theorem copyTensorRegion_eq_calls {α : Type} (dest src : Tensor α)
    (destOrigin srcOrigin regionSize : List Nat) :
    copyTensorRegion dest src destOrigin srcOrigin regionSize
      = (copyTensorRegionCalls dest.shape src.shape destOrigin srcOrigin regionSize).map
          (fun calls => { dest with
            data := calls.foldl
              (fun m c => memcpy m c.destIndex src.data c.srcIndex c.count) dest.data }) := by
  have h := regionLoop_log
    (fun destIdx srcIdx => (⟨destIdx, srcIdx,
      (contiguousLoop ⟨regionSize, src.shape.alignment⟩ src.shape dest.shape src.shape.ndims
        (List.replicate src.shape.ndims 1, 1)).2⟩ : MemcpyCall))
    (fun (m : Nat → α) c => memcpy m c.destIndex src.data c.srcIndex c.count)
    (contiguousLoop ⟨regionSize, src.shape.alignment⟩ src.shape dest.shape src.shape.ndims
        (List.replicate src.shape.ndims 1, 1)).1
    dest.data (loopBound regionSize)
    (TensorRegionIndexIterator.init dest.shape destOrigin regionSize)
    (TensorRegionIndexIterator.init src.shape srcOrigin regionSize) []
  simp only [List.foldl_nil] at h
  simp only [copyTensorRegion, copyTensorRegionCalls]
  rw [h, Option.map_map]
  rfl

/-- C22 (code defect, evaluated): source and destination are 1 x 16 tensors
with alignment 8 and the region has size 1 x 4 at the origin, inside both.
The destination element at `(0, 4)` holds 0 before the call. The build with
`PEDANTIC` leaves it at 0; the default build overwrites it with the source
element 104. Inside the region the two builds agree. -/
theorem copyTensorRegion_variants_differ :
    inBounds [0, 0] [1, 4] [1, 16] = true ∧
    (copyTensorRegionPedantic (⟨⟨[1, 16], 8⟩, fun _ => 0⟩ : Tensor Nat)
        ⟨⟨[1, 16], 8⟩, fun k => k + 100⟩ [0, 0] [0, 0] [1, 4]).map
      (fun t => (List.range 8).map t.data) = some [100, 101, 102, 103, 0, 0, 0, 0] ∧
    (copyTensorRegion (⟨⟨[1, 16], 8⟩, fun _ => 0⟩ : Tensor Nat)
        ⟨⟨[1, 16], 8⟩, fun k => k + 100⟩ [0, 0] [0, 0] [1, 4]).map
      (fun t => (List.range 8).map t.data)
      = some [100, 101, 102, 103, 104, 105, 106, 107] := by
  decide

/-- C23 (code defect, evaluated): source and destination are 1 x 16 tensors
with alignment 8, of 16 elements of storage each, and the region has size
1 x 4 at origin `(0, 12)`, inside both. The one `memcpy` of the call starts at
linear index 12 in both buffers and copies 8 elements, the region row padded
to the alignment: it reads and writes the indices 12 to 19, four of them
behind the end of either buffer. -/
theorem copyTensorRegion_memcpy_past_storage :
    inBounds [0, 12] [1, 4] [1, 16] = true ∧
    (⟨[1, 16], 8⟩ : TensorShape).storageSize = 16 ∧
    copyTensorRegionCalls ⟨[1, 16], 8⟩ ⟨[1, 16], 8⟩ [0, 12] [0, 12] [1, 4]
      = some [⟨12, 12, 8⟩] ∧
    (⟨[1, 16], 8⟩ : TensorShape).storageSize < 12 + 8 := by
  decide

/-! ### The contiguous-run rule -/

/-- C24 (code defect, evaluated): the inputs have two batch tiles, the weights
one tile, and the outputs one tile, so the check `outputs.size() == 1` passes
and the run completes. The call for batch tile `N = 1` uses the output tile at
linear position `outputIdx(1, 0) = 1`, and the outputs grid has the single
position 0. The input and the weight positions of both calls are inside
their grids. -/
theorem runNWA_output_tile_out_of_range :
    (grid 1 1 (fun _ _ => [2, 4])).size = 1 ∧
    (runNWA (grid 2 1 (fun _ _ => [2, 8])) (grid 1 1 (fun _ _ => [4, 8]))
        (grid 1 1 (fun _ _ => [2, 4]))).status = Status.ok ∧
    (runNWA (grid 2 1 (fun _ _ => [2, 8])) (grid 1 1 (fun _ _ => [4, 8]))
        (grid 1 1 (fun _ _ => [2, 4]))).calls.map
      (fun c => (c.batch, c.inputTile, c.weightsTile, c.outputTile))
      = [(0, 0, 0, 0), (1, 1, 0, 1)] := by
  decide

/-- C5 (code defect, evaluated): inputs tiled 2 x 2, weights tiled 2 x 2, one
output tile, for which the claim counts `2 * 2 * 2 = 8` kernel calls. The
check `outputs.size() == 1` passes. The four calls of batch tile 0 use the
output tile at position 0. For batch tile 1 the function looks up the output
tile at linear position `outputIdx(1, 0) = 1`, outside the one-tile outputs
grid, before any call of that batch tile: the four calls listed for batch
tile 1 are those that follow this lookup, and four of the eight calls precede
it. -/
theorem runNWA_second_batch_tile_calls :
    (grid 1 1 (fun _ _ => [2, 6])).size = 1 ∧
    ((runNWA (grid 2 2 (fun _ _ => [1, 4])) (grid 2 2 (fun _ _ => [3, 4]))
        (grid 1 1 (fun _ _ => [2, 6]))).calls.takeWhile
      (fun c => decide (c.outputTile < (grid 1 1 (fun _ _ => [2, 6])).size))).length = 4 ∧
    (runNWA (grid 2 2 (fun _ _ => [1, 4])) (grid 2 2 (fun _ _ => [3, 4]))
        (grid 1 1 (fun _ _ => [2, 6]))).calls.map
      (fun c => (c.batch, c.neuron, c.wC, c.outputTile))
      = [(0, 0, 0, 0), (0, 0, 1, 0), (0, 1, 0, 0), (0, 1, 1, 0),
         (1, 0, 0, 1), (1, 0, 1, 1), (1, 1, 0, 1), (1, 1, 1, 1)] := by
  decide

/-- C7 (code defect, evaluated): inputs tiled 2 x 2, weights tiled 1 x 2, one
output tile: there is a batch tile and a weight-neuron tile, and
`inputActTiles == weightActTiles`, for which the claim says that `runNWA`
completes without failing. The check `outputs.size() == 1` and the check on
the activation-tile counts pass; at batch tile 1 the function looks up the
output tile at linear position `outputIdx(1, 0) = 1`, outside the one-tile
outputs grid. -/
theorem runNWA_accepted_grid_leaves_outputs :
    (grid 1 1 (fun _ _ => [2, 6])).size = 1 ∧
    (grid 2 2 (fun _ _ => [1, 4])).dim 1 = (grid 1 2 (fun _ _ => [6, 4])).dim 1 ∧
    (runNWA (grid 2 2 (fun _ _ => [1, 4])) (grid 1 2 (fun _ _ => [6, 4]))
        (grid 1 1 (fun _ _ => [2, 6]))).status ≠ Status.assertFailed ∧
    (runNWA (grid 2 2 (fun _ _ => [1, 4])) (grid 1 2 (fun _ _ => [6, 4]))
        (grid 1 1 (fun _ _ => [2, 6]))).calls.map (fun c => (c.batch, c.outputTile))
      = [(0, 0), (0, 0), (1, 1), (1, 1)] := by
  decide

/-- C9 (code defect, evaluated): the inputs have two batch tiles and one
activation tile, the weights one weight-neuron tile and `Wa = 2` activation
tiles, and there is one output tile. For batch tile `N = 1` and weight-neuron
tile `W = 0` the claim lists one call for each of the weight tiles `(0, 0)` and
`(0, 1)`, with input tile `(1, 0)`. Both calls come after the lookup of the
output tile of batch tile 1 at linear position `outputIdx(1, 0) = 1`, outside
the one-tile outputs grid, and are given that tile. -/
theorem runNWA_stationary_input_second_batch_tile :
    (grid 1 1 (fun _ _ => [2, 6])).size = 1 ∧
    ((runNWA (grid 2 1 (fun _ _ => [1, 8])) (grid 1 2 (fun _ _ => [6, 4]))
        (grid 1 1 (fun _ _ => [2, 6]))).calls.filter
          (fun c => decide (c.batch = 1) && decide (c.neuron = 0))).map
            (fun c => (c.iC, c.wC, c.inputTile, c.weightsTile, c.outputTile))
      = [(0, 0, 1, 0, 1), (0, 1, 1, 1, 1)] := by
  decide

/-! ## Theorems: size of the intermediate buffer -/

end smaug
